import Mathlib

/-!
Verification development for the LR parser driver in
src/Traductores_II/comp.py: a shallow embedding of its lexical scanner
(analizador_lexico), its LR parse driver (analizar / desplazar / reducir /
obtener_goto / manejar_error) and its derivation-tree builder, together
with theorems about the frozen behavioural claims.

Conventions of the embedding:
- Python strings are Lean String; scanning works on List Char.
- The parse stack (class Pila) holds integers and tree nodes; it is
  embedded as List Elem with Elem := Nat ⊕ Arbol, head = top of stack.
- The LR table (a pandas DataFrame loaded from CSV, an external artifact)
  is a structure of row labels, column labels and a cell function; a none
  cell models a NaN / blank entry.
- Python exceptions are explicit constructors or Option none results.
- The driver loop (while True in analizar) is run on explicit fuel;
  with a hostile table the Python loop genuinely may not terminate, so
  claims about runs are conditioned on the run reaching a terminal result.
- Regular expressions of the scanner are translated pattern by pattern to
  executable matchers over List Char (ASCII reading of the \b, \w, \d
  classes of the re module).
-/

/-! ## Character classes (ASCII reading of Python str.isspace and re \w, \d) -/

/-- Python str.isspace for the ASCII range, used both by the scanner loop
and by str.strip. -/
def esEspacio (c : Char) : Bool :=
  c == ' ' || c == '\t' || c == '\n' || c == '\r' || c == '\x0b' || c == '\x0c'

/-- The regex word class \w = [a-zA-Z0-9_], which defines \b boundaries. -/
def esPalabraChar (c : Char) : Bool :=
  c.isAlpha || c.isDigit || c == '_'

/-- First-character class of the identificador pattern: [a-zA-Z_]. -/
def esInicioIdent (c : Char) : Bool :=
  c.isAlpha || c == '_'

/-! ## Small string helpers mirroring the Python operations used -/

/-- lit is a prefix of s (un literal coincide al inicio). -/
def esPrefijo : List Char → List Char → Bool
  | [], _ => true
  | _ :: _, [] => false
  | c :: restoL, d :: restoS => c == d && esPrefijo restoL restoS

/-- Python int(...) on a plain digit string: some n when nonempty and all
digits, none models the ValueError. -/
def cadenaANat (s : String) : Option Nat :=
  let l := s.data
  if l.isEmpty || !(l.all Char.isDigit) then none
  else some (l.foldl (fun acc c => acc * 10 + (c.toNat - '0'.toNat)) 0)

/-- Python s[1:]. -/
def quitarPrimero (s : String) : String := String.mk (s.data.drop 1)

/-- Python s.startswith(p). -/
def empiezaCon (p s : String) : Bool := esPrefijo p.data s.data

/-- Python s.strip(): drop whitespace from both ends. -/
def recortar (s : String) : String :=
  String.mk (((s.data.dropWhile esEspacio).reverse.dropWhile esEspacio).reverse)

/-- Python s.strip('<>'): drop the characters < and > from both ends. -/
def quitarAngulos (s : String) : String :=
  let esAngulo : Char → Bool := fun c => c == '<' || c == '>'
  String.mk (((s.data.dropWhile esAngulo).reverse.dropWhile esAngulo).reverse)

/-- Python ' '.join(l). -/
def unirConEspacios : List String → String
  | [] => ""
  | [s] => s
  | s :: resto => s ++ " " ++ unirConEspacios resto

/-- Splitter worker for Python s.split() (split on whitespace runs,
dropping empty pieces); acc holds the current word reversed. -/
def troceaAux : List Char → List Char → List (List Char)
  | [], acc => if acc.isEmpty then [] else [acc.reverse]
  | c :: resto, acc =>
    if esEspacio c then
      if acc.isEmpty then troceaAux resto [] else acc.reverse :: troceaAux resto []
    else troceaAux resto (c :: acc)

/-- Python s.split() with no separator argument. -/
def palabras (s : String) : List String := (troceaAux s.data []).map String.mk

/-- First split of l at separator sep: some (before, after) at the leftmost
occurrence of sep, none when sep does not occur. -/
def parteEn (sep : List Char) : List Char → Option (List Char × List Char)
  | [] => none
  | c :: resto =>
    if esPrefijo sep (c :: resto) then some ([], (c :: resto).drop sep.length)
    else
      match parteEn sep resto with
      | some (antes, despues) => some (c :: antes, despues)
      | none => none

/-! ## The scanner patterns (the patrones dict of analizador_lexico)

Each Python regex, matched with re.match anchored at the current offset,
becomes a matcher: it receives the character just before the offset (for
the \b word-boundary test) and the remaining input, and returns the number
of characters the match consumes, or none. -/

/-- The type of one compiled pattern of the scanner. -/
abbrev Patron := Option Char → List Char → Option Nat

/-- A \b boundary just before a pattern that begins with a word character:
true at offset 0 or after a non-word character. -/
def limiteIzquierdo (prev : Option Char) : Bool :=
  match prev with
  | none => true
  | some c => !(esPalabraChar c)

/-- A \b boundary just after a word character, looking at what remains. -/
def limiteDespues (s : List Char) : Bool :=
  match s with
  | [] => true
  | c :: _ => !(esPalabraChar c)

/-- A literal pattern such as \( or && or ; . -/
def coincidirLit (lit : List Char) : Patron := fun _ s =>
  if esPrefijo lit s then some lit.length else none

/-- One \b...\b keyword alternative (e.g. \bint\b). -/
def coincidirPalabraClave (w : List Char) : Patron := fun prev s =>
  if limiteIzquierdo prev && esPrefijo w s && limiteDespues (s.drop w.length) then
    some w.length
  else none

/-- The pattern \bint\b|\bfloat\b, alternatives tried left to right. -/
def coincidirTipo : Patron := fun prev s =>
  match coincidirPalabraClave [ 'i', 'n', 't' ] prev s with
  | some k => some k
  | none => coincidirPalabraClave [ 'f', 'l', 'o', 'a', 't' ] prev s

/-- The pattern \b[a-zA-Z_][a-zA-Z0-9_]*\b: greedy run of word characters
after a valid first character (the trailing \b always holds at the end of
the maximal run, and no shorter run can satisfy it). -/
def coincidirIdentificador : Patron := fun prev s =>
  match s with
  | [] => none
  | c :: resto =>
    if limiteIzquierdo prev && esInicioIdent c then
      some (1 + (resto.takeWhile esPalabraChar).length)
    else none

/-- The pattern \b\d+\b: only the maximal digit run (takeWhile) can
satisfy the trailing \b (a shorter run is followed by a digit, a word
character). -/
def coincidirEntero : Patron := fun prev s =>
  if limiteIzquierdo prev && !(s.takeWhile Char.isDigit).isEmpty
      && limiteDespues (s.drop (s.takeWhile Char.isDigit).length) then
    some (s.takeWhile Char.isDigit).length
  else none

/-- The pattern \b\d+\.\d+\b: maximal digit run, a dot, maximal digit run,
then a \b boundary. -/
def coincidirReal : Patron := fun prev s =>
  if limiteIzquierdo prev && !(s.takeWhile Char.isDigit).isEmpty then
    match s.drop (s.takeWhile Char.isDigit).length with
    | [] => none
    | d :: resto2 =>
      if d == '.' then
        if !(resto2.takeWhile Char.isDigit).isEmpty
            && limiteDespues (resto2.drop (resto2.takeWhile Char.isDigit).length) then
          some ((s.takeWhile Char.isDigit).length + 1
            + (resto2.takeWhile Char.isDigit).length)
        else none
      else none
  else none

/-- The pattern \".*?\": a quote, then the lazy dot (which cannot cross a
newline) up to the first closing quote. -/
def coincidirCadena : Patron := fun _ s =>
  match s with
  | [] => none
  | c :: resto =>
    if c == '\x22' then
      if (resto.takeWhile (fun x => x != '\x22')).all (fun x => x != '\n') then
        match resto.drop (resto.takeWhile (fun x => x != '\x22')).length with
        | [] => none
        | d :: _ =>
          if d == '\x22' then
            some ((resto.takeWhile (fun x => x != '\x22')).length + 2)
          else none
      else none
    else none

/-- The pattern <=|>=|<|> , alternatives tried left to right. -/
def coincidirOpRelac : Patron := fun _ s =>
  if esPrefijo [ '<', '=' ] s then some 2
  else if esPrefijo [ '>', '=' ] s then some 2
  else if esPrefijo [ '<' ] s then some 1
  else if esPrefijo [ '>' ] s then some 1
  else none

/-- The pattern ==|!= , alternatives tried left to right. -/
def coincidirOpIgualdad : Patron := fun _ s =>
  if esPrefijo [ '=', '=' ] s then some 2
  else if esPrefijo [ '!', '=' ] s then some 2
  else none

/-- The patrones dict of analizador_lexico, in its exact insertion order
(Python dicts preserve it, and the scanner loop iterates it in order). -/
def patrones : List (String × Patron) :=
  [ ("(", coincidirLit [ '(' ]),
    (")", coincidirLit [ ')' ]),
    ("\x7b", coincidirLit [ '{' ]),
    ("\x7d", coincidirLit [ '}' ]),
    ("tipo", coincidirTipo),
    ("identificador", coincidirIdentificador),
    ("entero", coincidirEntero),
    ("real", coincidirReal),
    ("cadena", coincidirCadena),
    ("opSuma", coincidirLit [ '+' ]),
    ("opMul", coincidirLit [ '*' ]),
    ("opRelac", coincidirOpRelac),
    ("opIgualdad", coincidirOpIgualdad),
    ("opAnd", coincidirLit [ '&', '&' ]),
    ("opOr", coincidirLit [ '|', '|' ]),
    ("opNot", coincidirLit [ '!' ]),
    ("=", coincidirLit [ '=' ]),
    (";", coincidirLit [ ';' ]),
    (",", coincidirLit [ ',' ]),
    ("if", coincidirPalabraClave [ 'i', 'f' ]),
    ("else", coincidirPalabraClave [ 'e', 'l', 's', 'e' ]),
    ("while", coincidirPalabraClave [ 'w', 'h', 'i', 'l', 'e' ]),
    ("return", coincidirPalabraClave [ 'r', 'e', 't', 'u', 'r', 'n' ]) ]

/-- The inner for-loop of the scanner: the first pattern of patrones that
matches at the current offset, with the length it consumes. -/
def primerPatron (prev : Option Char) (s : List Char) : Option (String × Nat) :=
  List.findSome?
    (fun p => match p.2 prev s with
      | some k => some (p.1, k)
      | none => none)
    patrones

/-- The while-loop of analizador_lexico, on explicit fuel: one unit per
iteration; every iteration consumes at least one character, so fuel equal
to the input length always suffices (proved below). prev is the character
just before the current offset, needed by the \b tests. -/
def explorar : Nat → Option Char → List Char → List String
  | 0, _, _ => []
  | _ + 1, _, [] => []
  | n + 1, prev, c :: resto =>
    if esEspacio c then explorar n (some c) resto
    else
      match primerPatron prev (c :: resto) with
      | some (nombre, k) =>
        nombre :: explorar n (some (((c :: resto).take k).getLastD c)) ((c :: resto).drop k)
      | none =>
        ("ERROR(" ++ String.mk [ c ] ++ ")") :: explorar n (some c) resto

/-- AnalizadorLR.analizador_lexico: scan the whole source text. -/
def analizador_lexico (codigo_fuente : String) : List String :=
  explorar codigo_fuente.data.length none codigo_fuente.data

example : analizador_lexico "int foo(){}" =
    ["tipo", "identificador", "(", ")", "\x7b", "\x7d"] := by decide

example : analizador_lexico "1.5" = ["entero", "ERROR(.)", "entero"] := by decide

example : analizador_lexico "if(x<=2)" =
    ["identificador", "(", "identificador", "opRelac", "entero", ")"] := by decide

/-! ## The derivation tree and the parse stack -/

/-- class Arbol: a node has a label (valor) and a list of children (hijos).
In Python the hijos list is heterogeneous (it receives whatever reducir
pops from the stack), so a child is either an automaton state (a Nat, only
reachable on malformed stacks) or a subtree. -/
inductive Arbol where
  | mk : String → List (Nat ⊕ Arbol) → Arbol

/-- The label of a node. -/
def Arbol.valor : Arbol → String
  | Arbol.mk v _ => v

/-- The children of a node. -/
def Arbol.hijos : Arbol → List (Nat ⊕ Arbol)
  | Arbol.mk _ hs => hs

/-- One element of the parse stack (class Pila): an automaton state (int)
or a grammar-symbol node (Arbol). -/
abbrev Elem := Nat ⊕ Arbol

mutual
/-- The leaves of a derivation tree, read left to right: a node with no
children is itself a leaf carrying its label. A state stored as a child
(impossible on well-formed stacks) carries no leaf. -/
def hojas : Arbol → List String
  | Arbol.mk v [] => [v]
  | Arbol.mk _ (e :: resto) => hojasElems (e :: resto)
/-- Leaves of a list of children, left to right. -/
def hojasElems : List Elem → List String
  | [] => []
  | Sum.inl _ :: resto => hojasElems resto
  | Sum.inr a :: resto => hojas a ++ hojasElems resto
end

/-- The token and nonterminal names of this program never begin with the
character < reserved to bracketed nonterminal labels; this test separates
terminal leaves from the childless nonterminal nodes that empty
productions create. -/
def empiezaConMenor (s : String) : Bool :=
  match s.data with
  | [] => false
  | c :: _ => c == '<'

/-- The leaves of a tree that carry terminal labels (the bracketed labels
of childless nonterminal nodes filtered out). -/
def hojasFiltradas (a : Arbol) : List String :=
  (hojas a).filter (fun tok => !(empiezaConMenor tok))

/-! ## The grammar rule catalog (the global reglas dict) -/

/-- The reglas dict of comp.py, keyed 0..52 by list position; the strings
are verbatim. -/
def reglasLista : List String :=
  [ "<Inicial> ::= <programa>",
    "<programa> ::= <Definiciones>",
    "<Definiciones> ::= \\e",
    "<Definiciones> ::= <Definicion> <Definiciones>",
    "<Definicion> ::= <DefVar>",
    "<Definicion> ::= <DefFunc>",
    "<DefVar> ::= tipo identificador <ListaVar> ;",
    "<ListaVar> ::= \\e",
    "<ListaVar> ::= , identificador <ListaVar>",
    "<DefFunc> ::= tipo identificador ( <Parametros> ) <BloqFunc>",
    "<Parametros> ::= \\e",
    "<Parametros> ::= tipo identificador <ListaParam>",
    "<ListaParam> ::= \\e",
    "<ListaParam> ::= , tipo identificador <ListaParam>",
    "<BloqFunc> ::= \x7b <DefLocales> \x7d",
    "<DefLocales> ::= \\e",
    "<DefLocales> ::= <DefLocal> <DefLocales>",
    "<DefLocal> ::= <DefVar>",
    "<DefLocal> ::= <Sentencia>",
    "<Sentencias> ::= \\e",
    "<Sentencias> ::= <Sentencia> <Sentencias>",
    "<Sentencia> ::= identificador = <Expresion> ;",
    "<Sentencia> ::= if ( <Expresion> ) <SentenciaBloque> <Otro>",
    "<Sentencia> ::= while ( <Expresion> ) <Bloque>",
    "<Sentencia> ::= return <ValorRegresa> ;",
    "<Sentencia> ::= <LlamadaFunc> ;",
    "<Otro> ::= \\e",
    "<Otro> ::= else <SentenciaBloque>",
    "<Bloque> ::= \x7b <Sentencias> \x7d",
    "<ValorRegresa> ::= \\e",
    "<ValorRegresa> ::= <Expresion>",
    "<Argumentos> ::= \\e",
    "<Argumentos> ::= <Expresion> <ListaArgumentos>",
    "<ListaArgumentos> ::= \\e",
    "<ListaArgumentos> ::= , <Expresion> <ListaArgumentos>",
    "<Termino> ::= <LlamadaFunc>",
    "<Termino> ::= identificador",
    "<Termino> ::= entero",
    "<Termino> ::= real",
    "<Termino> ::= cadena",
    "<LlamadaFunc> ::= identificador ( <Argumentos> )",
    "<SentenciaBloque> ::= <Sentencia>",
    "<SentenciaBloque> ::= <Bloque>",
    "<Expresion> ::= ( <Expresion> )",
    "<Expresion> ::= opSuma <Expresion>",
    "<Expresion> ::= opNot <Expresion>",
    "<Expresion> ::= <Expresion> opMul <Expresion>",
    "<Expresion> ::= <Expresion> opSuma <Expresion>",
    "<Expresion> ::= <Expresion> opRelac <Expresion>",
    "<Expresion> ::= <Expresion> opIgualdad <Expresion>",
    "<Expresion> ::= <Expresion> opAnd <Expresion>",
    "<Expresion> ::= <Expresion> opOr <Expresion>",
    "<Expresion> ::= <Termino>" ]

/-- Rule lookup by number (the reglas dict access; none models the
KeyError raised when a rule number is undefined). -/
def reglas (numero_regla : Nat) : Option String := reglasLista.get? numero_regla

/-- Python regla.split(' ::= ') unpacked into exactly two pieces: none
models the ValueError when the separator does not occur exactly once. -/
def separarRegla (regla : String) : Option (String × String) :=
  match parteEn [ ' ', ':', ':', '=', ' ' ] regla.data with
  | none => none
  | some (cab, resto) =>
    match parteEn [ ' ', ':', ':', '=', ' ' ] resto with
    | some _ => none
    | none => some (String.mk cab, String.mk resto)

example : separarRegla "<Definiciones> ::= \\e" = some ("<Definiciones>", "\\e") := by decide

/-! ## The LR table (external artifact consumed through pandas) -/

/-- The loaded LR table: its row index (states), its column labels, and a
cell access; none models a NaN / blank cell. Cell contents are kept as the
already-rendered strings the driver reads (str(accion) for actions,
a digit string for goto entries). -/
structure Tabla where
  filas : List Nat
  columnas : List String
  celda : Nat → String → Option String

/-- AnalizadorLR.obtener_accion. Returns none for the KeyError pandas
raises when the state is not a row of the table; otherwise the action
string, with the missing-column and NaN cases mapped to "error" exactly as
the source does. -/
def obtener_accion (t : Tabla) (estado : Nat) (token : String) : Option String :=
  if token ∈ t.columnas then
    if estado ∈ t.filas then
      some (match t.celda estado token with
        | some accion => recortar accion
        | none => "error")
    else none
  else some "error"

/-- Result of obtener_goto: a state, the "error" marker for a missing
transition, or an exception (KeyError on an unknown row, ValueError from
int on a non-numeric cell). -/
inductive ResultadoGoto where
  | estadoG : Nat → ResultadoGoto
  | sinTransicion : ResultadoGoto
  | excepcionG : ResultadoGoto
deriving DecidableEq

/-- AnalizadorLR.obtener_goto: strip the angle brackets from the
nonterminal, then look the cell up; NaN and a missing column give the
"error" marker. -/
def obtener_goto (t : Tabla) (estado : Nat) (no_terminal : String) : ResultadoGoto :=
  let simbolo := recortar (quitarAngulos no_terminal)
  if simbolo ∈ t.columnas then
    if estado ∈ t.filas then
      match t.celda estado simbolo with
      | some g =>
        match cadenaANat g with
        | some n => ResultadoGoto.estadoG n
        | none => ResultadoGoto.excepcionG
      | none => ResultadoGoto.sinTransicion
    else ResultadoGoto.excepcionG
  else ResultadoGoto.sinTransicion

/-! ## The driver state (the mutable fields of AnalizadorLR) -/

/-- The mutable state of one parse run: the stack (head = top), the
remaining input, the trace (salida_proceso, in append order), the error
flag and the recorded tree root. -/
structure EstadoLR where
  pila : List Elem
  flujo_entrada : List String
  salida_proceso : List (String × String × String)
  error_ocurrido : Bool
  arbol : Option Arbol

/-- AnalizadorLR.__init__: stack holding the single state 0, no input yet,
empty trace, no error, no recorded root. -/
def estadoInicial (flujo : List String) : EstadoLR :=
  { pila := [Sum.inl 0]
    flujo_entrada := flujo
    salida_proceso := []
    error_ocurrido := false
    arbol := none }

/-- AnalizadorLR.leer_codigo_fuente: scan the source and append the end
marker. -/
def leer_codigo_fuente (fuente : String) : List String :=
  analizador_lexico fuente ++ ["$"]

/-- The driver state right after __init__ plus leer_codigo_fuente. -/
def inicialDesdeFuente (fuente : String) : EstadoLR :=
  estadoInicial (leer_codigo_fuente fuente)

/-- AnalizadorLR.obtener_estado_actual: first integer from the top of the
stack; none models the exception raised when no state is found. -/
def obtener_estado_actual : List Elem → Option Nat
  | [] => none
  | Sum.inl s :: _ => some s
  | Sum.inr _ :: resto => obtener_estado_actual resto

/-- AnalizadorLR.obtener_pila_como_cadena: elements base to top, states as
decimal, nodes as their label, joined by spaces. -/
def obtener_pila_como_cadena (pila : List Elem) : String :=
  unirConEspacios (pila.reverse.map (fun e =>
    match e with
    | Sum.inl n => toString n
    | Sum.inr a => a.valor))

/-- The error message format of AnalizadorLR.manejar_error. -/
def mensajeDeError (estado : Nat) (token : String) : String :=
  "Error: No hay acción para el estado " ++ toString estado ++ " y el token \x27" ++ token ++ "\x27"

/-- AnalizadorLR.manejar_error: append the error entry to the trace and
set the error flag (the file output it also produces is out of scope). -/
def manejar_error (estado : Nat) (token : String) (st : EstadoLR) : EstadoLR :=
  { st with
    salida_proceso := st.salida_proceso ++
      [(obtener_pila_como_cadena st.pila, unirConEspacios st.flujo_entrada,
        mensajeDeError estado token)]
    error_ocurrido := true }

/-- AnalizadorLR.desplazar: parse the target state from the action, push
the token leaf then the state, and consume the first input token. none
models the exceptions (int ValueError, pop(0) on an empty list). -/
def desplazar (accion token : String) (st : EstadoLR) : Option EstadoLR :=
  match cadenaANat (quitarPrimero accion) with
  | none => none
  | some estado_siguiente =>
    match st.flujo_entrada with
    | [] => none
    | _ :: resto =>
      some { st with
        pila := Sum.inl estado_siguiente :: Sum.inr (Arbol.mk token []) :: st.pila
        flujo_entrada := resto }

/-- The pop loop of AnalizadorLR.reducir: n times pop a state (discarded)
and then the symbol element beneath it, inserting the symbol at the front
of the children accumulator; none models the empty-stack exception. -/
def sacarHijos : Nat → List Elem → List Elem → Option (List Elem × List Elem)
  | 0, hijos, pila => some (hijos, pila)
  | n + 1, hijos, pila =>
    match pila with
    | _ :: nodo_hijo :: resto => sacarHijos n (nodo_hijo :: hijos) resto
    | _ => none

/-- Outcome of reducir: continue the loop (also after a goto failure,
which only sets the error flag), the rule-0 exit() shortcut, or a raised
exception. -/
inductive ResultadoReduce where
  | continuaR : EstadoLR → ResultadoReduce
  | regla0R : EstadoLR → ResultadoReduce
  | excepcionR : EstadoLR → ResultadoReduce

/-- The tail of AnalizadorLR.reducir after the pop loop: read the exposed
state, push the new node, look the goto up; on the "error" marker call
manejar_error and return to the loop (nothing more is pushed), otherwise
push the goto state and possibly record the tree root. -/
def reducirFin (t : Tabla) (cabecera : String) (hijos : List Elem)
    (pilaRestante : List Elem) (st : EstadoLR) : ResultadoReduce :=
  let nodo_actual := Arbol.mk cabecera hijos
  match obtener_estado_actual pilaRestante with
  | none => ResultadoReduce.excepcionR st
  | some estado_anterior =>
    let pila1 := Sum.inr nodo_actual :: pilaRestante
    match obtener_goto t estado_anterior cabecera with
    | ResultadoGoto.excepcionG => ResultadoReduce.excepcionR { st with pila := pila1 }
    | ResultadoGoto.sinTransicion =>
      ResultadoReduce.continuaR (manejar_error estado_anterior cabecera { st with pila := pila1 })
    | ResultadoGoto.estadoG estado_siguiente =>
      ResultadoReduce.continuaR { st with
        pila := Sum.inl estado_siguiente :: pila1
        arbol :=
          if st.arbol.isNone && (cabecera == "<programa>") then some nodo_actual
          else st.arbol }

/-- AnalizadorLR.reducir: parse the rule number ("rN"), exit() on rule 0,
fetch and split the rule, pop the right-hand side unless it is the empty
production \e, then finish with reducirFin. -/
def reducir (t : Tabla) (accion : String) (st : EstadoLR) : ResultadoReduce :=
  match cadenaANat (quitarPrimero accion) with
  | none => ResultadoReduce.excepcionR st
  | some numero_regla =>
    if numero_regla == 0 then ResultadoReduce.regla0R st
    else
      match reglas numero_regla with
      | none => ResultadoReduce.excepcionR st
      | some regla =>
        match separarRegla regla with
        | none => ResultadoReduce.excepcionR st
        | some (cabecera, cuerpo) =>
          let cuerpoLimpio := recortar cuerpo
          let tokens_cuerpo := palabras cuerpoLimpio
          if cuerpoLimpio == "\\e" then reducirFin t cabecera [] st.pila st
          else
            match sacarHijos tokens_cuerpo.length [] st.pila with
            | none => ResultadoReduce.excepcionR st
            | some (hijos, pilaRestante) => reducirFin t cabecera hijos pilaRestante st

/-- Outcome of one iteration of the while-loop of AnalizadorLR.analizar:
continue, the accept return, the rule-0 exit() shortcut, the error return
(also taken at the top of the loop once error_ocurrido is set), or a
raised exception. -/
inductive Paso where
  | continua : EstadoLR → Paso
  | aceptado : EstadoLR → Paso
  | procesoTerminado : EstadoLR → Paso
  | errorSintactico : EstadoLR → Paso
  | excepcion : EstadoLR → Paso

/-- The lookahead of the loop: the first input token, or the end marker
when the input is exhausted. -/
def tokenActual (flujo : List String) : String :=
  match flujo with
  | [] => "$"
  | tok :: _ => tok

/-- One iteration of the while-loop of AnalizadorLR.analizar: check the
error flag, read the current state and lookahead, look the action up,
append the trace entry, then dispatch on the action prefix. -/
def iteracion (t : Tabla) (st : EstadoLR) : Paso :=
  if st.error_ocurrido then Paso.errorSintactico st
  else
    match obtener_estado_actual st.pila with
    | none => Paso.excepcion st
    | some estado_actual =>
      let token_actual := tokenActual st.flujo_entrada
      match obtener_accion t estado_actual token_actual with
      | none => Paso.excepcion st
      | some accion =>
        let st1 := { st with
          salida_proceso := st.salida_proceso ++
            [(obtener_pila_como_cadena st.pila, unirConEspacios st.flujo_entrada, accion)] }
        if empiezaCon "d" accion then
          match desplazar accion token_actual st1 with
          | none => Paso.excepcion st1
          | some st2 => Paso.continua st2
        else if empiezaCon "r" accion then
          match reducir t accion st1 with
          | ResultadoReduce.continuaR st2 => Paso.continua st2
          | ResultadoReduce.regla0R st2 => Paso.procesoTerminado st2
          | ResultadoReduce.excepcionR st2 => Paso.excepcion st2
        else if accion == "accept" then Paso.aceptado st1
        else Paso.errorSintactico (manejar_error estado_actual token_actual st1)

/-- Terminal result of a run of AnalizadorLR.analizar on explicit fuel;
combustibleAgotado is the fuel running out (the Python loop can really
run forever on a hostile table, so runs are quantified up to fuel). -/
inductive Resultado where
  | combustibleAgotado : EstadoLR → Resultado
  | aceptado : EstadoLR → Resultado
  | procesoTerminado : EstadoLR → Resultado
  | errorSintactico : EstadoLR → Resultado
  | excepcion : EstadoLR → Resultado

/-- AnalizadorLR.analizar: iterate until a terminal outcome (or until the
fuel runs out). -/
def analizar (t : Tabla) : Nat → EstadoLR → Resultado
  | 0, st => Resultado.combustibleAgotado st
  | fuel + 1, st =>
    match iteracion t st with
    | Paso.continua st2 => analizar t fuel st2
    | Paso.aceptado st2 => Resultado.aceptado st2
    | Paso.procesoTerminado st2 => Resultado.procesoTerminado st2
    | Paso.errorSintactico st2 => Resultado.errorSintactico st2
    | Paso.excepcion st2 => Resultado.excepcion st2

/-! ## Well-formed stacks and the pop-loop decomposition -/

/-- The alternation invariant of the parse stack as the spec states it,
read from the top: state, node, state, node, ..., ending in a state at the
base (so the top is always a state and the length is odd). -/
def bienFormada : List Elem → Bool
  | [Sum.inl _] => true
  | Sum.inl _ :: Sum.inr _ :: resto => bienFormada resto
  | _ => false

/-- The stack segment holding a run of (state, element) pairs, top first. -/
def pares (l : List (Nat × Elem)) : List Elem :=
  l.flatMap (fun p => [Sum.inl p.1, p.2])

theorem sacarHijos_pares (l : List (Nat × Elem)) :
    ∀ (acc resto : List Elem),
      sacarHijos l.length acc (pares l ++ resto) =
        some ((l.map Prod.snd).reverse ++ acc, resto) := by
  induction l with
  | nil => intro acc resto; simp [pares, sacarHijos]
  | cons p restoL ih =>
    intro acc resto
    rw [show pares (p :: restoL) = Sum.inl p.1 :: p.2 :: pares restoL from rfl]
    rw [show (p :: restoL).length = restoL.length + 1 from rfl]
    rw [List.cons_append, List.cons_append]
    rw [show sacarHijos (restoL.length + 1) acc
          (Sum.inl p.1 :: p.2 :: (pares restoL ++ resto)) =
        sacarHijos restoL.length (p.2 :: acc) (pares restoL ++ resto) from rfl]
    rw [ih (p.2 :: acc) resto]
    simp

theorem sacarHijos_descompone :
    ∀ (n : Nat) (acc pila hijos resto : List Elem),
      bienFormada pila = true →
      sacarHijos n acc pila = some (hijos, resto) →
      ∃ l : List (Nat × Arbol),
        pila = pares (l.map (fun p => (p.1, Sum.inr p.2))) ++ resto ∧
        l.length = n ∧
        hijos = (l.map (fun p => Sum.inr p.2)).reverse ++ acc ∧
        bienFormada resto = true := by
  intro n
  induction n with
  | zero =>
    intro acc pila hijos resto hbf h
    refine ⟨[], ?_, rfl, ?_, ?_⟩ <;> simp_all [sacarHijos, pares]
  | succ n ih =>
    intro acc pila hijos resto hbf h
    match pila, hbf with
    | [Sum.inl s], hbf => simp [sacarHijos] at h
    | Sum.inl s :: Sum.inr a :: pila2, hbf =>
      have hbf2 : bienFormada pila2 = true := hbf
      simp only [sacarHijos] at h
      obtain ⟨l, hp, hl, hh, hr⟩ := ih (Sum.inr a :: acc) pila2 hijos resto hbf2 h
      refine ⟨(s, a) :: l, ?_, by simp [hl], ?_, hr⟩
      · simp [pares, List.flatMap_cons] at hp ⊢
        exact hp
      · simp [hh]

/-! ## Leaf bookkeeping for the round-trip invariant -/

/-- Terminal leaves contributed by one stack element: none for a state,
the filtered leaves for a node. -/
def elemHojas : Elem → List String
  | Sum.inl _ => []
  | Sum.inr a => hojasFiltradas a

/-- Terminal leaves of all nodes on the stack, read base to top (hence
left to right in input order). -/
def hojasPila (pila : List Elem) : List String :=
  (pila.reverse.map elemHojas).flatten

theorem hojasPila_nil : hojasPila [] = [] := rfl

theorem hojasPila_cons (e : Elem) (pila : List Elem) :
    hojasPila (e :: pila) = hojasPila pila ++ elemHojas e := by
  simp [hojasPila]

theorem hojasPila_pares (l : List (Nat × Arbol)) :
    ∀ (resto : List Elem),
      hojasPila (pares (l.map (fun p => (p.1, Sum.inr p.2))) ++ resto) =
        hojasPila resto ++ (l.reverse.map (fun p => hojasFiltradas p.2)).flatten := by
  induction l with
  | nil => intro resto; simp [pares]
  | cons p restoL ih =>
    intro resto
    rw [show pares ((p :: restoL).map fun p => (p.1, Sum.inr p.2)) =
        Sum.inl p.1 :: Sum.inr p.2 ::
          pares (restoL.map fun p => (p.1, Sum.inr p.2)) from rfl]
    rw [List.cons_append, List.cons_append, hojasPila_cons, hojasPila_cons, ih resto]
    simp [elemHojas]

theorem hojasElems_inr (as : List Arbol) :
    hojasElems (as.map Sum.inr) = (as.map hojas).flatten := by
  induction as with
  | nil => simp [hojasElems]
  | cons a resto ih => simp [hojasElems, ih]

theorem filtro_hojasElems (q : String → Bool) (as : List Arbol) :
    (hojasElems (as.map Sum.inr)).filter q =
      (as.map (fun x => (hojas x).filter q)).flatten := by
  induction as with
  | nil => simp [hojasElems]
  | cons a resto ih => simp [hojasElems, List.filter_append, ih]

theorem hojasFiltradas_interior (cab : String) (a : Arbol) (as : List Arbol) :
    hojasFiltradas (Arbol.mk cab ((a :: as).map Sum.inr)) =
      ((a :: as).map hojasFiltradas).flatten := by
  simp only [List.map_cons, hojasFiltradas, hojas]
  rw [show (Sum.inr a :: as.map Sum.inr : List Elem) = (a :: as).map Sum.inr from rfl]
  rw [filtro_hojasElems]
  simp
  rfl

theorem hojasFiltradas_vacio (cab : String) (h : empiezaConMenor cab = true) :
    hojasFiltradas (Arbol.mk cab []) = [] := by
  simp [hojasFiltradas, hojas, List.filter, h]

/-! ## Facts about the rule catalog -/

theorem reglas_cabecera :
    ∀ (r : Nat) (regla cab cue : String),
      reglas r = some regla → separarRegla regla = some (cab, cue) →
      empiezaConMenor cab = true := by
  have h53 : ∀ r < 53,
      (match reglas r with
        | some regla =>
          match separarRegla regla with
          | some (cab, _) => empiezaConMenor cab
          | none => true
        | none => true) = true := by decide
  intro r regla cab cue hr hsep
  have hlt : r < 53 := by
    have := List.get?_eq_some.mp hr
    simpa [reglasLista] using this.1
  simpa [hr, hsep] using h53 r hlt

/-! ## Generic facts about the first-match search -/

theorem findSome?_de_mem {α β : Type} (f : α → Option β) :
    ∀ (l : List α) (b : β), l.findSome? f = some b → ∃ a, a ∈ l ∧ f a = some b := by
  intro l
  induction l with
  | nil => intro b h; simp [List.findSome?] at h
  | cons x resto ih =>
    intro b h
    rw [List.findSome?_cons] at h
    cases hx : f x with
    | some bx =>
      rw [hx] at h
      exact ⟨x, by simp, by rw [hx]; exact h⟩
    | none =>
      rw [hx] at h
      obtain ⟨a, ha, hfa⟩ := ih b h
      exact ⟨a, by simp [ha], hfa⟩

theorem findSome?_en_indice {α β : Type} (f : α → Option β) :
    ∀ (l : List α) (i : Nat) (a : α) (b : β),
      l.get? i = some a → f a = some b →
      ((l.take i).all fun x => (f x).isNone) = true →
      l.findSome? f = some b := by
  intro l
  induction l with
  | nil => intro i a b h; simp at h
  | cons x resto ih =>
    intro i a b hget hf hantes
    cases i with
    | zero =>
      simp at hget
      rw [List.findSome?_cons, hget, hf]
    | succ i =>
      simp only [List.get?_cons_succ] at hget
      simp only [List.take_succ_cons, List.all_cons, Bool.and_eq_true] at hantes
      rw [List.findSome?_cons]
      cases hx : f x with
      | some bx => rw [hx] at hantes; simp at hantes
      | none => exact ih i a b hget hf hantes.2

/-! ## Facts about the scanner patterns -/

theorem primerPatron_nombre (prev : Option Char) (s : List Char) (nombre : String) (k : Nat)
    (h : primerPatron prev s = some (nombre, k)) :
    ∃ p, p ∈ patrones ∧ p.1 = nombre ∧ p.2 prev s = some k := by
  obtain ⟨p, hp, hfp⟩ := findSome?_de_mem _ patrones (nombre, k) h
  refine ⟨p, hp, ?_, ?_⟩ <;>
  · cases hm : p.2 prev s with
    | some k2 => rw [hm] at hfp; simp at hfp; simp [hfp]
    | none => rw [hm] at hfp; simp at hfp

theorem esPrefijo_longitud :
    ∀ (a b : List Char), esPrefijo a b = true → a.length ≤ b.length := by
  intro a
  induction a with
  | nil => intro b _; simp
  | cons c resto ih =>
    intro b h
    cases b with
    | nil => simp [esPrefijo] at h
    | cons d restoB =>
      simp only [esPrefijo, Bool.and_eq_true] at h
      simpa using ih restoB h.2

theorem coincidirLit_cota (lit : List Char) (prev : Option Char) (s : List Char) (k : Nat)
    (hne : lit ≠ []) (h : coincidirLit lit prev s = some k) : 1 ≤ k ∧ k ≤ s.length := by
  unfold coincidirLit at h
  split at h
  · cases h
    constructor
    · cases lit with
      | nil => simp at hne
      | cons c resto => simp
    · exact esPrefijo_longitud _ _ (by assumption)
  · cases h

theorem coincidirPalabraClave_cota (w : List Char) (prev : Option Char) (s : List Char)
    (k : Nat) (hne : w ≠ []) (h : coincidirPalabraClave w prev s = some k) :
    1 ≤ k ∧ k ≤ s.length := by
  unfold coincidirPalabraClave at h
  split at h
  · cases h
    rename_i hc
    simp only [Bool.and_eq_true] at hc
    constructor
    · cases w with
      | nil => simp at hne
      | cons c resto => simp
    · exact esPrefijo_longitud _ _ hc.1.2
  · cases h

theorem coincidirTipo_cota (prev : Option Char) (s : List Char) (k : Nat)
    (h : coincidirTipo prev s = some k) : 1 ≤ k ∧ k ≤ s.length := by
  unfold coincidirTipo at h
  cases h1 : coincidirPalabraClave [ 'i', 'n', 't' ] prev s with
  | some k1 =>
    simp only [h1, Option.some.injEq] at h
    subst h
    exact coincidirPalabraClave_cota _ _ _ _ (by simp) h1
  | none =>
    simp only [h1] at h
    exact coincidirPalabraClave_cota _ _ _ _ (by simp) h

theorem noVacia_longitud {α : Type} (l : List α) (h : l.isEmpty = false) : 1 ≤ l.length := by
  cases l with
  | nil => simp at h
  | cons c resto => simp

theorem longitud_takeWhile {α : Type} (p : α → Bool) :
    ∀ l : List α, (l.takeWhile p).length ≤ l.length := by
  intro l
  induction l with
  | nil => simp
  | cons c resto ih =>
    rw [List.takeWhile_cons]
    cases p c
    · simp
    · simp
      omega

theorem coincidirIdentificador_cota (prev : Option Char) (s : List Char) (k : Nat)
    (h : coincidirIdentificador prev s = some k) : 1 ≤ k ∧ k ≤ s.length := by
  unfold coincidirIdentificador at h
  cases s with
  | nil => simp at h
  | cons c resto =>
    simp only at h
    split at h
    · simp only [Option.some.injEq] at h
      subst h
      have := longitud_takeWhile esPalabraChar resto
      simp only [List.length_cons]
      omega
    · simp at h

theorem coincidirEntero_cota (prev : Option Char) (s : List Char) (k : Nat)
    (h : coincidirEntero prev s = some k) : 1 ≤ k ∧ k ≤ s.length := by
  unfold coincidirEntero at h
  split at h
  · rename_i hc
    simp only [Option.some.injEq] at h
    subst h
    simp only [Bool.and_eq_true, Bool.not_eq_true'] at hc
    have h1 := noVacia_longitud _ hc.1.2
    have h2 := longitud_takeWhile Char.isDigit s
    omega
  · simp at h

theorem coincidirReal_cota (prev : Option Char) (s : List Char) (k : Nat)
    (h : coincidirReal prev s = some k) : 1 ≤ k ∧ k ≤ s.length := by
  unfold coincidirReal at h
  split at h
  · split at h
    · simp at h
    · rename_i d resto2 hdrop
      split at h
      · split at h
        · simp only [Option.some.injEq] at h
          subst h
          have h1 := longitud_takeWhile Char.isDigit s
          have h2 := longitud_takeWhile Char.isDigit resto2
          have h3 : (s.drop (s.takeWhile Char.isDigit).length).length =
              s.length - (s.takeWhile Char.isDigit).length := by
            simp
          rw [hdrop] at h3
          simp only [List.length_cons] at h3
          omega
        · simp at h
      · simp at h
  · simp at h

theorem coincidirCadena_cota (prev : Option Char) (s : List Char) (k : Nat)
    (h : coincidirCadena prev s = some k) : 1 ≤ k ∧ k ≤ s.length := by
  unfold coincidirCadena at h
  cases s with
  | nil => simp at h
  | cons c resto =>
    simp only at h
    split at h
    · split at h
      · split at h
        · simp at h
        · rename_i d resto3 hdrop
          split at h
          · simp only [Option.some.injEq] at h
            subst h
            have h2 := longitud_takeWhile (fun x => x != '\x22') resto
            have h3 : (resto.drop (resto.takeWhile (fun x => x != '\x22')).length).length =
                resto.length - (resto.takeWhile (fun x => x != '\x22')).length := by
              simp
            rw [hdrop] at h3
            simp only [List.length_cons] at h3
            simp only [List.length_cons]
            omega
          · simp at h
      · simp at h
    · simp at h

theorem coincidirOpRelac_cota (prev : Option Char) (s : List Char) (k : Nat)
    (h : coincidirOpRelac prev s = some k) : 1 ≤ k ∧ k ≤ s.length := by
  unfold coincidirOpRelac at h
  split at h
  · rename_i hpre
    simp only [Option.some.injEq] at h
    subst h
    have := esPrefijo_longitud _ _ hpre
    simp only [List.length_cons, List.length_nil] at this
    omega
  · split at h
    · rename_i hpre
      simp only [Option.some.injEq] at h
      subst h
      have := esPrefijo_longitud _ _ hpre
      simp only [List.length_cons, List.length_nil] at this
      omega
    · split at h
      · rename_i hpre
        simp only [Option.some.injEq] at h
        subst h
        have := esPrefijo_longitud _ _ hpre
        simp only [List.length_cons, List.length_nil] at this
        omega
      · split at h
        · rename_i hpre
          simp only [Option.some.injEq] at h
          subst h
          have := esPrefijo_longitud _ _ hpre
          simp only [List.length_cons, List.length_nil] at this
          omega
        · simp at h

theorem coincidirOpIgualdad_cota (prev : Option Char) (s : List Char) (k : Nat)
    (h : coincidirOpIgualdad prev s = some k) : 1 ≤ k ∧ k ≤ s.length := by
  unfold coincidirOpIgualdad at h
  split at h
  · rename_i hpre
    simp only [Option.some.injEq] at h
    subst h
    have := esPrefijo_longitud _ _ hpre
    simp only [List.length_cons, List.length_nil] at this
    omega
  · split at h
    · rename_i hpre
      simp only [Option.some.injEq] at h
      subst h
      have := esPrefijo_longitud _ _ hpre
      simp only [List.length_cons, List.length_nil] at this
      omega
    · simp at h

theorem patron_cota (p : String × Patron) (hp : p ∈ patrones) :
    ∀ (prev : Option Char) (s : List Char) (k : Nat),
      p.2 prev s = some k → 1 ≤ k ∧ k ≤ s.length := by
  intro prev s k h
  simp only [patrones, List.mem_cons, List.mem_singleton] at hp
  rcases hp with rfl | rfl | rfl | rfl | rfl | rfl | rfl | rfl | rfl | rfl | rfl | rfl |
    rfl | rfl | rfl | rfl | rfl | rfl | rfl | rfl | rfl | rfl | rfl | hf
  case _ => exact coincidirLit_cota [ '(' ] prev s k (by simp) h
  case _ => exact coincidirLit_cota [ ')' ] prev s k (by simp) h
  case _ => exact coincidirLit_cota [ '{' ] prev s k (by simp) h
  case _ => exact coincidirLit_cota [ '}' ] prev s k (by simp) h
  case _ => exact coincidirTipo_cota prev s k h
  case _ => exact coincidirIdentificador_cota prev s k h
  case _ => exact coincidirEntero_cota prev s k h
  case _ => exact coincidirReal_cota prev s k h
  case _ => exact coincidirCadena_cota prev s k h
  case _ => exact coincidirLit_cota [ '+' ] prev s k (by simp) h
  case _ => exact coincidirLit_cota [ '*' ] prev s k (by simp) h
  case _ => exact coincidirOpRelac_cota prev s k h
  case _ => exact coincidirOpIgualdad_cota prev s k h
  case _ => exact coincidirLit_cota [ '&', '&' ] prev s k (by simp) h
  case _ => exact coincidirLit_cota [ '|', '|' ] prev s k (by simp) h
  case _ => exact coincidirLit_cota [ '!' ] prev s k (by simp) h
  case _ => exact coincidirLit_cota [ '=' ] prev s k (by simp) h
  case _ => exact coincidirLit_cota [ ';' ] prev s k (by simp) h
  case _ => exact coincidirLit_cota [ ',' ] prev s k (by simp) h
  case _ => exact coincidirPalabraClave_cota [ 'i', 'f' ] prev s k (by simp) h
  case _ => exact coincidirPalabraClave_cota [ 'e', 'l', 's', 'e' ] prev s k (by simp) h
  case _ => exact coincidirPalabraClave_cota [ 'w', 'h', 'i', 'l', 'e' ] prev s k (by simp) h
  case _ => exact coincidirPalabraClave_cota [ 'r', 'e', 't', 'u', 'r', 'n' ] prev s k (by simp) h
  case _ => simp at hf

theorem primerPatron_cota (prev : Option Char) (s : List Char) (nombre : String) (k : Nat)
    (h : primerPatron prev s = some (nombre, k)) : 1 ≤ k ∧ k ≤ s.length := by
  obtain ⟨p, hp, _, hm⟩ := primerPatron_nombre prev s nombre k h
  exact patron_cota p hp prev s k hm

/-! ## Termination and adequacy of the fueled scanner loop -/

theorem explorar_longitud :
    ∀ (n : Nat) (prev : Option Char) (s : List Char),
      (explorar n prev s).length ≤ s.length := by
  intro n
  induction n with
  | zero => intro prev s; simp [explorar]
  | succ n ih =>
    intro prev s
    cases s with
    | nil => simp [explorar]
    | cons c resto =>
      simp only [explorar]
      split
      · have := ih (some c) resto
        simp only [List.length_cons]
        omega
      · cases hpp : primerPatron prev (c :: resto) with
        | some nk =>
          obtain ⟨nombre, k⟩ := nk
          simp only [hpp]
          have hb := primerPatron_cota prev (c :: resto) nombre k hpp
          have hrec := ih (some (((c :: resto).take k).getLastD c)) ((c :: resto).drop k)
          simp only [List.length_cons, List.length_drop] at hb hrec ⊢
          omega
        | none =>
          simp only [hpp]
          have := ih (some c) resto
          simp only [List.length_cons]
          omega

theorem explorar_adecuado :
    ∀ (m : Nat) (s : List Char) (n : Nat) (prev : Option Char),
      s.length ≤ m → s.length ≤ n →
      explorar n prev s = explorar s.length prev s := by
  intro m
  induction m with
  | zero =>
    intro s n prev hm hn
    have hs : s = [] := List.length_eq_zero.mp (Nat.le_zero.mp hm)
    subst hs
    cases n <;> simp [explorar]
  | succ m ih =>
    intro s n prev hm hn
    cases s with
    | nil => cases n <;> simp [explorar]
    | cons c resto =>
      cases n with
      | zero => simp only [List.length_cons] at hn; omega
      | succ n =>
        simp only [List.length_cons] at hm hn
        simp only [explorar, List.length_cons]
        by_cases hesp : esEspacio c = true
        · rw [if_pos hesp, if_pos hesp]
          rw [ih resto n (some c) (by omega) (by omega)]
        · rw [if_neg hesp, if_neg hesp]
          cases hpp : primerPatron prev (c :: resto) with
          | some nk =>
            obtain ⟨nombre, k⟩ := nk
            simp only [hpp]
            have hb := primerPatron_cota prev (c :: resto) nombre k hpp
            have hd : ((c :: resto).drop k).length = resto.length + 1 - k := by simp
            congr 1
            rw [ih ((c :: resto).drop k) n _ (by omega) (by omega)]
            rw [ih ((c :: resto).drop k) resto.length _ (by omega) (by omega)]
          | none =>
            simp only [hpp]
            congr 1
            rw [ih resto n (some c) (by omega) (by omega)]

/-- Claim C10: for every finite input string the scanner terminates within
one loop iteration per input character (any fuel at least the input length
gives the same result as fuel exactly the input length, because every
iteration consumes at least one character) and returns a token sequence no
longer than the input. -/
theorem C10_terminacion (codigo : String) (n : Nat) (h : codigo.data.length ≤ n) :
    explorar n none codigo.data = analizador_lexico codigo ∧
      (analizador_lexico codigo).length ≤ codigo.data.length := by
  constructor
  · exact explorar_adecuado n codigo.data n none h h
  · exact explorar_longitud codigo.data.length none codigo.data

/-- Witness for C10 at the concrete source text int x; with surplus fuel. -/
theorem C10_testigo :
    explorar 99 none ("int x;").data = analizador_lexico "int x;" ∧
      (analizador_lexico "int x;").length ≤ ("int x;").data.length :=
  C10_terminacion "int x;" 99 (by decide)

/-- Claim C6: at every offset where the scanner stands on a non-space
character, if the pattern at priority position i matches there and every
earlier pattern fails there, the scanner emits exactly that pattern name
and advances by exactly the matched length: first match in priority
order, not longest match, decides. -/
theorem C6_prioridad (n : Nat) (prev : Option Char) (c : Char) (resto : List Char)
    (i : Nat) (nombre : String) (m : Patron) (k : Nat)
    (hc : esEspacio c = false)
    (hi : patrones.get? i = some (nombre, m))
    (hm : m prev (c :: resto) = some k)
    (hantes : ((patrones.take i).all fun p => (p.2 prev (c :: resto)).isNone) = true) :
    explorar (n + 1) prev (c :: resto) =
      nombre :: explorar n (some (((c :: resto).take k).getLastD c)) ((c :: resto).drop k) := by
  have hpp : primerPatron prev (c :: resto) = some (nombre, k) := by
    unfold primerPatron
    refine findSome?_en_indice _ patrones i (nombre, m) (nombre, k) hi ?_ ?_
    · simp only [hm]
    · refine List.all_eq_true.mpr ?_
      intro x hx
      have hxn := List.all_eq_true.mp hantes x hx
      cases hx2 : x.2 prev (c :: resto) with
      | some k2 => rw [hx2] at hxn; simp at hxn
      | none => simp [hx2]
  simp only [explorar]
  rw [if_neg (by simp [hc]), hpp]

/-- Witness for C6 on the text 1.5: the entero pattern (priority 6) beats
the later real pattern even though real would match three characters and
entero only one: priority, not longest match. -/
theorem C6_testigo :
    explorar 3 none [ '1', '.', '5' ] = "entero" :: explorar 2 (some '1') [ '.', '5' ] :=
  C6_prioridad 2 none '1' [ '.', '5' ] 6 "entero" coincidirEntero 1
    (by decide) rfl (by decide) (by decide)

/-- Claim C7: when no pattern matches at a non-space offset, the scanner
emits an error token carrying exactly the offending character, advances by
exactly one character, and keeps scanning the rest in-line. -/
theorem C7_errorLexico (n : Nat) (prev : Option Char) (c : Char) (resto : List Char)
    (hc : esEspacio c = false)
    (h : primerPatron prev (c :: resto) = none) :
    explorar (n + 1) prev (c :: resto) =
      ("ERROR(" ++ String.mk [ c ] ++ ")") :: explorar n (some c) resto := by
  simp only [explorar]
  rw [if_neg (by simp [hc]), h]

/-- Witness for C7 at the character @ which no pattern matches. -/
theorem C7_testigo : explorar 1 none [ '@' ] = ["ERROR(@)"] :=
  (C7_errorLexico 0 none '@' [] (by decide) (by decide)).trans (by decide)

/-! ## Why the keyword and real patterns can never fire -/

theorem palabraClave_subsumida (c0 : Char) (restoW : List Char)
    (hini : esInicioIdent c0 = true) :
    ∀ (prev : Option Char) (s : List Char) (k : Nat),
      coincidirPalabraClave (c0 :: restoW) prev s = some k →
      ∃ j, coincidirIdentificador prev s = some j := by
  intro prev s k h
  unfold coincidirPalabraClave at h
  split at h
  · rename_i hcond
    simp only [Bool.and_eq_true] at hcond
    obtain ⟨⟨hb, hpre⟩, _⟩ := hcond
    cases s with
    | nil => simp [esPrefijo] at hpre
    | cons d restoS =>
      simp only [esPrefijo, Bool.and_eq_true, beq_iff_eq] at hpre
      obtain ⟨hcd, _⟩ := hpre
      subst hcd
      refine ⟨1 + (restoS.takeWhile esPalabraChar).length, ?_⟩
      unfold coincidirIdentificador
      simp only
      rw [if_pos (by simp [hb, hini])]
  · simp at h

theorem real_subsumido (prev : Option Char) (s : List Char) (k : Nat)
    (h : coincidirReal prev s = some k) :
    ∃ j, coincidirEntero prev s = some j := by
  unfold coincidirReal at h
  split at h
  · rename_i hcond
    split at h
    · simp at h
    · rename_i d resto2 hdrop
      split at h
      · rename_i hdot
        refine ⟨(s.takeWhile Char.isDigit).length, ?_⟩
        unfold coincidirEntero
        have hcond2 : (limiteIzquierdo prev && !(s.takeWhile Char.isDigit).isEmpty
            && limiteDespues (s.drop (s.takeWhile Char.isDigit).length)) = true := by
          simp only [Bool.and_eq_true] at hcond ⊢
          refine ⟨hcond, ?_⟩
          rw [hdrop]
          have hd : d = '.' := by simpa using hdot
          subst hd
          rw [show limiteDespues ('.' :: resto2) = !(esPalabraChar '.') from rfl]
          decide
        rw [if_pos hcond2]
      · simp at h
  · simp at h

/-- Every token name the first-match search can return: the four keyword
patterns are preceded by identificador and the real pattern is preceded by
entero, and the earlier pattern matches whenever the later one would, so
the names if, else, while, return and real never come out. -/
theorem primerPatron_alcanzable (prev : Option Char) (s : List Char) (nombre : String)
    (k : Nat) (h : primerPatron prev s = some (nombre, k)) :
    nombre ∈ (["(", ")", "\x7b", "\x7d", "tipo", "identificador", "entero", "cadena",
      "opSuma", "opMul", "opRelac", "opIgualdad", "opAnd", "opOr", "opNot",
      "=", ";", ","] : List String) := by
  simp only [primerPatron, patrones, List.findSome?_cons, List.findSome?_nil] at h
  cases h0 : coincidirLit [ '(' ] prev s with
  | some k0 =>
    simp only [h0, Option.some.injEq, Prod.mk.injEq] at h
    obtain ⟨h1, _⟩ := h
    subst h1
    decide
  | none =>
  simp only [h0] at h
  cases h1 : coincidirLit [ ')' ] prev s with
  | some k1 =>
    simp only [h1, Option.some.injEq, Prod.mk.injEq] at h
    obtain ⟨hx, _⟩ := h
    subst hx
    decide
  | none =>
  simp only [h1] at h
  cases h2 : coincidirLit [ '{' ] prev s with
  | some k2 =>
    simp only [h2, Option.some.injEq, Prod.mk.injEq] at h
    obtain ⟨hx, _⟩ := h
    subst hx
    decide
  | none =>
  simp only [h2] at h
  cases h3 : coincidirLit [ '}' ] prev s with
  | some k3 =>
    simp only [h3, Option.some.injEq, Prod.mk.injEq] at h
    obtain ⟨hx, _⟩ := h
    subst hx
    decide
  | none =>
  simp only [h3] at h
  cases h4 : coincidirTipo prev s with
  | some k4 =>
    simp only [h4, Option.some.injEq, Prod.mk.injEq] at h
    obtain ⟨hx, _⟩ := h
    subst hx
    decide
  | none =>
  simp only [h4] at h
  cases h5 : coincidirIdentificador prev s with
  | some k5 =>
    simp only [h5, Option.some.injEq, Prod.mk.injEq] at h
    obtain ⟨hx, _⟩ := h
    subst hx
    decide
  | none =>
  simp only [h5] at h
  cases h6 : coincidirEntero prev s with
  | some k6 =>
    simp only [h6, Option.some.injEq, Prod.mk.injEq] at h
    obtain ⟨hx, _⟩ := h
    subst hx
    decide
  | none =>
  simp only [h6] at h
  cases h7 : coincidirReal prev s with
  | some k7 =>
    obtain ⟨j, hj⟩ := real_subsumido prev s k7 h7
    rw [h6] at hj
    simp at hj
  | none =>
  simp only [h7] at h
  cases h8 : coincidirCadena prev s with
  | some k8 =>
    simp only [h8, Option.some.injEq, Prod.mk.injEq] at h
    obtain ⟨hx, _⟩ := h
    subst hx
    decide
  | none =>
  simp only [h8] at h
  cases h9 : coincidirLit [ '+' ] prev s with
  | some k9 =>
    simp only [h9, Option.some.injEq, Prod.mk.injEq] at h
    obtain ⟨hx, _⟩ := h
    subst hx
    decide
  | none =>
  simp only [h9] at h
  cases h10 : coincidirLit [ '*' ] prev s with
  | some k10 =>
    simp only [h10, Option.some.injEq, Prod.mk.injEq] at h
    obtain ⟨hx, _⟩ := h
    subst hx
    decide
  | none =>
  simp only [h10] at h
  cases h11 : coincidirOpRelac prev s with
  | some k11 =>
    simp only [h11, Option.some.injEq, Prod.mk.injEq] at h
    obtain ⟨hx, _⟩ := h
    subst hx
    decide
  | none =>
  simp only [h11] at h
  cases h12 : coincidirOpIgualdad prev s with
  | some k12 =>
    simp only [h12, Option.some.injEq, Prod.mk.injEq] at h
    obtain ⟨hx, _⟩ := h
    subst hx
    decide
  | none =>
  simp only [h12] at h
  cases h13 : coincidirLit [ '&', '&' ] prev s with
  | some k13 =>
    simp only [h13, Option.some.injEq, Prod.mk.injEq] at h
    obtain ⟨hx, _⟩ := h
    subst hx
    decide
  | none =>
  simp only [h13] at h
  cases h14 : coincidirLit [ '|', '|' ] prev s with
  | some k14 =>
    simp only [h14, Option.some.injEq, Prod.mk.injEq] at h
    obtain ⟨hx, _⟩ := h
    subst hx
    decide
  | none =>
  simp only [h14] at h
  cases h15 : coincidirLit [ '!' ] prev s with
  | some k15 =>
    simp only [h15, Option.some.injEq, Prod.mk.injEq] at h
    obtain ⟨hx, _⟩ := h
    subst hx
    decide
  | none =>
  simp only [h15] at h
  cases h16 : coincidirLit [ '=' ] prev s with
  | some k16 =>
    simp only [h16, Option.some.injEq, Prod.mk.injEq] at h
    obtain ⟨hx, _⟩ := h
    subst hx
    decide
  | none =>
  simp only [h16] at h
  cases h17 : coincidirLit [ ';' ] prev s with
  | some k17 =>
    simp only [h17, Option.some.injEq, Prod.mk.injEq] at h
    obtain ⟨hx, _⟩ := h
    subst hx
    decide
  | none =>
  simp only [h17] at h
  cases h18 : coincidirLit [ ',' ] prev s with
  | some k18 =>
    simp only [h18, Option.some.injEq, Prod.mk.injEq] at h
    obtain ⟨hx, _⟩ := h
    subst hx
    decide
  | none =>
  simp only [h18] at h
  cases h19 : coincidirPalabraClave [ 'i', 'f' ] prev s with
  | some k19 =>
    obtain ⟨j, hj⟩ := palabraClave_subsumida 'i' [ 'f' ] (by decide) prev s k19 h19
    rw [h5] at hj
    simp at hj
  | none =>
  simp only [h19] at h
  cases h20 : coincidirPalabraClave [ 'e', 'l', 's', 'e' ] prev s with
  | some k20 =>
    obtain ⟨j, hj⟩ := palabraClave_subsumida 'e' [ 'l', 's', 'e' ] (by decide) prev s k20 h20
    rw [h5] at hj
    simp at hj
  | none =>
  simp only [h20] at h
  cases h21 : coincidirPalabraClave [ 'w', 'h', 'i', 'l', 'e' ] prev s with
  | some k21 =>
    obtain ⟨j, hj⟩ := palabraClave_subsumida 'w' [ 'h', 'i', 'l', 'e' ] (by decide) prev s k21 h21
    rw [h5] at hj
    simp at hj
  | none =>
  simp only [h21] at h
  cases h22 : coincidirPalabraClave [ 'r', 'e', 't', 'u', 'r', 'n' ] prev s with
  | some k22 =>
    obtain ⟨j, hj⟩ := palabraClave_subsumida 'r' [ 'e', 't', 'u', 'r', 'n' ] (by decide) prev s k22 h22
    rw [h5] at hj
    simp at hj
  | none =>
  simp only [h22] at h
  simp at h

/-! ## What tokens the scanner can emit -/

theorem explorar_pertenece :
    ∀ (n : Nat) (prev : Option Char) (s : List Char) (tok : String),
      tok ∈ explorar n prev s →
      (∃ c, tok = "ERROR(" ++ String.mk [ c ] ++ ")") ∨
        ∃ prev2 s2 k, primerPatron prev2 s2 = some (tok, k) := by
  intro n
  induction n with
  | zero => intro prev s tok h; simp [explorar] at h
  | succ n ih =>
    intro prev s tok h
    cases s with
    | nil => simp [explorar] at h
    | cons c resto =>
      simp only [explorar] at h
      split at h
      · exact ih _ _ _ h
      · cases hpp : primerPatron prev (c :: resto) with
        | some nk =>
          obtain ⟨nombre, k⟩ := nk
          simp only [hpp] at h
          rcases List.mem_cons.mp h with rfl | hmem
          · exact Or.inr ⟨prev, c :: resto, k, hpp⟩
          · exact ih _ _ _ hmem
        | none =>
          simp only [hpp] at h
          rcases List.mem_cons.mp h with rfl | hmem
          · exact Or.inl ⟨c, rfl⟩
          · exact ih _ _ _ hmem

theorem errorTok_datos (c : Char) :
    ("ERROR(" ++ String.mk [ c ] ++ ")").data =
      'E' :: 'R' :: 'R' :: 'O' :: 'R' :: '(' :: c :: ')' :: [] := by
  rw [String.data_append, String.data_append]
  rw [show "ERROR(".data = [ 'E', 'R', 'R', 'O', 'R', '(' ] from rfl]
  rw [show (String.mk [ c ]).data = [ c ] from rfl]
  rw [show ")".data = [ ')' ] from rfl]
  simp

/-- Claim C9: the scanner never emits the token names if, else, while,
return or real: identificador precedes the four keyword patterns and
entero precedes the real pattern in the priority order, and the earlier
pattern matches wherever the later one would. -/
theorem C9_inalcanzables (fuente : String) (tok : String)
    (h : tok ∈ analizador_lexico fuente) :
    tok ≠ "if" ∧ tok ≠ "else" ∧ tok ≠ "while" ∧ tok ≠ "return" ∧ tok ≠ "real" := by
  rcases explorar_pertenece _ _ _ _ h with ⟨c, rfl⟩ | ⟨prev2, s2, k, hpp⟩
  · refine ⟨?_, ?_, ?_, ?_, ?_⟩
    · intro heq
      have h2 := congrArg String.data heq
      rw [errorTok_datos, show ("if").data = [ 'i', 'f' ] from rfl] at h2
      simp at h2
    · intro heq
      have h2 := congrArg String.data heq
      rw [errorTok_datos, show ("else").data = [ 'e', 'l', 's', 'e' ] from rfl] at h2
      simp at h2
    · intro heq
      have h2 := congrArg String.data heq
      rw [errorTok_datos,
        show ("while").data = [ 'w', 'h', 'i', 'l', 'e' ] from rfl] at h2
      simp at h2
    · intro heq
      have h2 := congrArg String.data heq
      rw [errorTok_datos,
        show ("return").data = [ 'r', 'e', 't', 'u', 'r', 'n' ] from rfl] at h2
      simp at h2
    · intro heq
      have h2 := congrArg String.data heq
      rw [errorTok_datos, show ("real").data = [ 'r', 'e', 'a', 'l' ] from rfl] at h2
      simp at h2
  · have hmem := primerPatron_alcanzable prev2 s2 tok k hpp
    have htodos : ∀ x ∈ (["(", ")", "\x7b", "\x7d", "tipo", "identificador", "entero",
        "cadena", "opSuma", "opMul", "opRelac", "opIgualdad", "opAnd", "opOr", "opNot",
        "=", ";", ","] : List String),
        x ≠ "if" ∧ x ≠ "else" ∧ x ≠ "while" ∧ x ≠ "return" ∧ x ≠ "real" := by decide
    exact htodos tok hmem

/-- Witness for C9: the source text if lexes to identificador, not to the
keyword name. -/
theorem C9_testigo :
    "identificador" ≠ "if" ∧ "identificador" ≠ "else" ∧ "identificador" ≠ "while" ∧
      "identificador" ≠ "return" ∧ "identificador" ≠ "real" :=
  C9_inalcanzables "if" "identificador" (by decide)

/-! ## Shapes of the driver transitions -/

theorem hojasFiltradas_reversa (cab : String) (l : List (Nat × Arbol))
    (hcab : empiezaConMenor cab = true) :
    hojasFiltradas (Arbol.mk cab ((l.map (fun p => Sum.inr p.2)).reverse)) =
      (l.reverse.map (fun p => hojasFiltradas p.2)).flatten := by
  cases l with
  | nil => simpa using hojasFiltradas_vacio cab hcab
  | cons p restoL =>
    rw [← List.map_reverse]
    cases hrev : (p :: restoL).reverse with
    | nil => have := congrArg List.length hrev; simp at this
    | cons a as =>
      rw [show (a :: as).map (fun p => Sum.inr p.2) =
          (a.2 :: as.map Prod.snd).map Sum.inr by simp]
      rw [hojasFiltradas_interior]
      rw [show ((a :: as).map fun p => hojasFiltradas p.2) =
          ((a.2 :: as.map Prod.snd).map hojasFiltradas) by simp]

theorem desplazar_formas (accion token : String) (st st3 : EstadoLR)
    (h : desplazar accion token st = some st3) :
    ∃ (g : Nat) (tok0 : String) (resto : List String),
      cadenaANat (quitarPrimero accion) = some g ∧
      st.flujo_entrada = tok0 :: resto ∧
      st3 = { st with
        pila := Sum.inl g :: Sum.inr (Arbol.mk token []) :: st.pila
        flujo_entrada := resto } := by
  unfold desplazar at h
  cases hg : cadenaANat (quitarPrimero accion) with
  | none => simp only [hg] at h; simp at h
  | some g =>
    simp only [hg] at h
    cases hf : st.flujo_entrada with
    | nil => simp only [hf] at h; simp at h
    | cons tok0 resto =>
      simp only [hf, Option.some.injEq] at h
      exact ⟨g, tok0, resto, rfl, rfl, h.symm⟩

theorem reducirFin_casos (t : Tabla) (cab : String) (hijos pilaR : List Elem)
    (st st3 : EstadoLR)
    (h : reducirFin t cab hijos pilaR st = ResultadoReduce.continuaR st3) :
    ∃ s2, obtener_estado_actual pilaR = some s2 ∧
      ((∃ g, obtener_goto t s2 cab = ResultadoGoto.estadoG g ∧
          st3.pila = Sum.inl g :: Sum.inr (Arbol.mk cab hijos) :: pilaR ∧
          st3.error_ocurrido = st.error_ocurrido ∧
          st3.salida_proceso = st.salida_proceso ∧
          st3.flujo_entrada = st.flujo_entrada) ∨
        (obtener_goto t s2 cab = ResultadoGoto.sinTransicion ∧
          st3.pila = Sum.inr (Arbol.mk cab hijos) :: pilaR ∧
          st3.error_ocurrido = true ∧
          st3.flujo_entrada = st.flujo_entrada ∧
          st3.arbol = st.arbol ∧
          st3.salida_proceso = st.salida_proceso ++
            [(obtener_pila_como_cadena (Sum.inr (Arbol.mk cab hijos) :: pilaR),
              unirConEspacios st.flujo_entrada, mensajeDeError s2 cab)])) := by
  unfold reducirFin at h
  cases hest : obtener_estado_actual pilaR with
  | none => simp only [hest] at h; simp at h
  | some s2 =>
    simp only [hest] at h
    refine ⟨s2, rfl, ?_⟩
    cases hg : obtener_goto t s2 cab with
    | excepcionG => simp only [hg] at h; simp at h
    | sinTransicion =>
      simp only [hg, ResultadoReduce.continuaR.injEq] at h
      refine Or.inr ⟨rfl, ?_, ?_, ?_, ?_, ?_⟩ <;> rw [← h] <;> simp [manejar_error]
    | estadoG g =>
      simp only [hg, ResultadoReduce.continuaR.injEq] at h
      refine Or.inl ⟨g, rfl, ?_, ?_, ?_, ?_⟩ <;> rw [← h]

theorem reducir_continua_formas (t : Tabla) (accion : String) (st st3 : EstadoLR)
    (hbf : bienFormada st.pila = true)
    (h : reducir t accion st = ResultadoReduce.continuaR st3) :
    ∃ (cab : String) (hijos pilaR : List Elem) (s2 : Nat),
      empiezaConMenor cab = true ∧
      bienFormada pilaR = true ∧
      obtener_estado_actual pilaR = some s2 ∧
      hojasPila (Sum.inr (Arbol.mk cab hijos) :: pilaR) = hojasPila st.pila ∧
      ((∃ g, obtener_goto t s2 cab = ResultadoGoto.estadoG g ∧
          st3.pila = Sum.inl g :: Sum.inr (Arbol.mk cab hijos) :: pilaR ∧
          st3.error_ocurrido = st.error_ocurrido ∧
          st3.salida_proceso = st.salida_proceso ∧
          st3.flujo_entrada = st.flujo_entrada) ∨
        (obtener_goto t s2 cab = ResultadoGoto.sinTransicion ∧
          st3.pila = Sum.inr (Arbol.mk cab hijos) :: pilaR ∧
          st3.error_ocurrido = true ∧
          st3.flujo_entrada = st.flujo_entrada ∧
          ∃ e2 : String × String × String, e2.2.2 = mensajeDeError s2 cab ∧
            st3.salida_proceso = st.salida_proceso ++ [e2])) := by
  simp only [reducir] at h
  cases hn : cadenaANat (quitarPrimero accion) with
  | none => simp only [hn] at h; simp at h
  | some nr =>
    simp only [hn] at h
    by_cases h0 : (nr == 0) = true
    · rw [if_pos h0] at h; simp at h
    · rw [if_neg h0] at h
      cases hre : reglas nr with
      | none => simp only [hre] at h; simp at h
      | some regla =>
        simp only [hre] at h
        cases hsep : separarRegla regla with
        | none => simp only [hsep] at h; simp at h
        | some par =>
          obtain ⟨cab, cue⟩ := par
          simp only [hsep] at h
          have hcab : empiezaConMenor cab = true :=
            reglas_cabecera nr regla cab cue hre hsep
          by_cases hvac : (recortar cue == "\\e") = true
          · rw [if_pos hvac] at h
            obtain ⟨s2, hest, hcasos⟩ := reducirFin_casos t cab [] st.pila st st3 h
            refine ⟨cab, [], st.pila, s2, hcab, hbf, hest, ?_, ?_⟩
            · rw [hojasPila_cons]
              rw [show elemHojas (Sum.inr (Arbol.mk cab [])) =
                  hojasFiltradas (Arbol.mk cab []) from rfl]
              rw [hojasFiltradas_vacio cab hcab]
              simp
            · rcases hcasos with ⟨g, hg, hp, he2, hs2, hf2⟩ | ⟨hg, hp, he2, hf2, _, hs2⟩
              · exact Or.inl ⟨g, hg, hp, he2, hs2, hf2⟩
              · exact Or.inr ⟨hg, hp, he2, hf2, _, rfl, hs2⟩
          · rw [if_neg hvac] at h
            cases hsh : sacarHijos (palabras (recortar cue)).length [] st.pila with
            | none => simp only [hsh] at h; simp at h
            | some par2 =>
              obtain ⟨hijos, pilaR⟩ := par2
              simp only [hsh] at h
              obtain ⟨l, hdescomp, hlen, hhijos, hbfR⟩ :=
                sacarHijos_descompone (palabras (recortar cue)).length [] st.pila
                  hijos pilaR hbf hsh
              obtain ⟨s2, hest, hcasos⟩ := reducirFin_casos t cab hijos pilaR st st3 h
              refine ⟨cab, hijos, pilaR, s2, hcab, hbfR, hest, ?_, ?_⟩
              · rw [hojasPila_cons]
                rw [hdescomp, hojasPila_pares]
                rw [show elemHojas (Sum.inr (Arbol.mk cab hijos)) =
                    hojasFiltradas (Arbol.mk cab hijos) from rfl]
                rw [hhijos]
                simp only [List.append_nil]
                rw [hojasFiltradas_reversa cab l hcab]
              · rcases hcasos with ⟨g, hg, hp, he2, hs2, hf2⟩ | ⟨hg, hp, he2, hf2, _, hs2⟩
                · exact Or.inl ⟨g, hg, hp, he2, hs2, hf2⟩
                · exact Or.inr ⟨hg, hp, he2, hf2, _, rfl, hs2⟩

theorem reducirFin_no_regla0 (t : Tabla) (cab : String) (hijos pilaR : List Elem)
    (st st3 : EstadoLR) :
    reducirFin t cab hijos pilaR st ≠ ResultadoReduce.regla0R st3 := by
  unfold reducirFin
  cases hest : obtener_estado_actual pilaR with
  | none => simp
  | some s2 => cases hg : obtener_goto t s2 cab <;> simp [hg]

theorem reducir_regla0 (t : Tabla) (accion : String) (st st3 : EstadoLR)
    (h : reducir t accion st = ResultadoReduce.regla0R st3) :
    st3 = st ∧ cadenaANat (quitarPrimero accion) = some 0 := by
  simp only [reducir] at h
  cases hn : cadenaANat (quitarPrimero accion) with
  | none => simp only [hn] at h; simp at h
  | some nr =>
    simp only [hn] at h
    by_cases h0 : (nr == 0) = true
    · rw [if_pos h0] at h
      simp only [ResultadoReduce.regla0R.injEq] at h
      refine ⟨h.symm, ?_⟩
      have hnr : nr = 0 := by simpa using h0
      rw [hnr]
    · rw [if_neg h0] at h
      cases hre : reglas nr with
      | none => simp only [hre] at h; simp at h
      | some regla =>
        simp only [hre] at h
        cases hsep : separarRegla regla with
        | none => simp only [hsep] at h; simp at h
        | some par =>
          obtain ⟨cab, cue⟩ := par
          simp only [hsep] at h
          by_cases hvac : (recortar cue == "\\e") = true
          · rw [if_pos hvac] at h
            exact absurd h (reducirFin_no_regla0 t cab [] st.pila st st3)
          · rw [if_neg hvac] at h
            cases hsh : sacarHijos (palabras (recortar cue)).length [] st.pila with
            | none => simp only [hsh] at h; simp at h
            | some par2 =>
              obtain ⟨hijos, pilaR⟩ := par2
              simp only [hsh] at h
              exact absurd h (reducirFin_no_regla0 t cab hijos pilaR st st3)

/-- The loop returns to its top once error_ocurrido is set and then stops
without touching the state again. -/
theorem iteracion_error_previo (t : Tabla) (st : EstadoLR)
    (he : st.error_ocurrido = true) :
    iteracion t st = Paso.errorSintactico st := by
  unfold iteracion
  rw [if_pos he]

theorem analizar_error_detiene (t : Tabla) (st : EstadoLR) (fuel : Nat)
    (he : st.error_ocurrido = true) :
    analizar t (fuel + 1) st = Resultado.errorSintactico st := by
  simp only [analizar]
  rw [iteracion_error_previo t st he]

theorem iteracion_continua (t : Tabla) (st st2 : EstadoLR)
    (he : st.error_ocurrido = false) (hbf : bienFormada st.pila = true)
    (h : iteracion t st = Paso.continua st2) :
    ∃ e1 : String × String × String,
      ((∃ (g : Nat) (token : String) (resto : List String),
          st.flujo_entrada = token :: resto ∧
          st2.pila = Sum.inl g :: Sum.inr (Arbol.mk token []) :: st.pila ∧
          st2.flujo_entrada = resto ∧
          st2.error_ocurrido = false ∧
          st2.arbol = st.arbol ∧
          st2.salida_proceso = st.salida_proceso ++ [e1]) ∨
       (∃ (cab : String) (hijos pilaR : List Elem) (s2 g : Nat),
          empiezaConMenor cab = true ∧
          bienFormada pilaR = true ∧
          hojasPila (Sum.inr (Arbol.mk cab hijos) :: pilaR) = hojasPila st.pila ∧
          obtener_goto t s2 cab = ResultadoGoto.estadoG g ∧
          st2.pila = Sum.inl g :: Sum.inr (Arbol.mk cab hijos) :: pilaR ∧
          st2.flujo_entrada = st.flujo_entrada ∧
          st2.error_ocurrido = false ∧
          st2.salida_proceso = st.salida_proceso ++ [e1]) ∨
       (∃ (cab : String) (hijos pilaR : List Elem) (s2 : Nat),
          empiezaConMenor cab = true ∧
          bienFormada pilaR = true ∧
          hojasPila (Sum.inr (Arbol.mk cab hijos) :: pilaR) = hojasPila st.pila ∧
          obtener_goto t s2 cab = ResultadoGoto.sinTransicion ∧
          st2.pila = Sum.inr (Arbol.mk cab hijos) :: pilaR ∧
          st2.flujo_entrada = st.flujo_entrada ∧
          st2.error_ocurrido = true ∧
          ∃ e2 : String × String × String, e2.2.2 = mensajeDeError s2 cab ∧
            st2.salida_proceso = st.salida_proceso ++ [e1, e2])) := by
  simp only [iteracion, he, Bool.false_eq_true, if_false] at h
  cases hest : obtener_estado_actual st.pila with
  | none => simp only [hest] at h; simp at h
  | some estado =>
    simp only [hest] at h
    cases hacc : obtener_accion t estado (tokenActual st.flujo_entrada) with
    | none => simp only [hacc] at h; simp at h
    | some accion =>
      simp only [hacc] at h
      by_cases hd : empiezaCon "d" accion = true
      · rw [if_pos hd] at h
        split at h
        · simp at h
        · rename_i st3 hdesp
          simp only [Paso.continua.injEq] at h
          subst h
          obtain ⟨g, tok0, resto, hg, hflujo, hst3⟩ :=
            desplazar_formas accion (tokenActual st.flujo_entrada) _ st3 hdesp
          simp only at hflujo
          refine ⟨(obtener_pila_como_cadena st.pila, unirConEspacios st.flujo_entrada,
            accion), Or.inl ⟨g, tok0, resto, hflujo, ?_, ?_, ?_, ?_, ?_⟩⟩ <;>
            (rw [hst3]; try simp [hflujo, tokenActual, he])
      · rw [if_neg hd] at h
        by_cases hr : empiezaCon "r" accion = true
        · rw [if_pos hr] at h
          split at h
          · rename_i st3 hred
            simp only [Paso.continua.injEq] at h
            subst h
            obtain ⟨cab, hijos, pilaR, s2, hcab, hbfR, hest2, hhojas, hcasos⟩ :=
              reducir_continua_formas t accion
                { pila := st.pila, flujo_entrada := st.flujo_entrada,
                  salida_proceso := st.salida_proceso ++
                    [(obtener_pila_como_cadena st.pila,
                      unirConEspacios st.flujo_entrada, accion)],
                  error_ocurrido := false, arbol := st.arbol } st3 hbf hred
            refine ⟨(obtener_pila_como_cadena st.pila, unirConEspacios st.flujo_entrada,
              accion), ?_⟩
            rcases hcasos with ⟨g, hg, hp, he2, hs2, hf2⟩ | ⟨hg, hp, he2, hf2, e2, hm2, hs2⟩
            · refine Or.inr (Or.inl ⟨cab, hijos, pilaR, s2, g, hcab, hbfR, hhojas, hg,
                hp, ?_, ?_, ?_⟩)
              · simpa using hf2
              · simpa [he] using he2
              · simpa using hs2
            · refine Or.inr (Or.inr ⟨cab, hijos, pilaR, s2, hcab, hbfR, hhojas, hg,
                hp, ?_, he2, e2, hm2, ?_⟩)
              · simpa using hf2
              · rw [hs2]
                simp
          · rename_i st3 hred
            simp at h
          · rename_i st3 hred
            simp at h
        · rw [if_neg hr] at h
          by_cases ha : (accion == "accept") = true
          · rw [if_pos ha] at h; simp at h
          · rw [if_neg ha] at h; simp at h

theorem iteracion_aceptado (t : Tabla) (st st2 : EstadoLR)
    (he : st.error_ocurrido = false)
    (h : iteracion t st = Paso.aceptado st2) :
    st2.pila = st.pila ∧ st2.flujo_entrada = st.flujo_entrada ∧
    st2.error_ocurrido = false ∧ st2.arbol = st.arbol ∧
    st2.salida_proceso = st.salida_proceso ++
      [(obtener_pila_como_cadena st.pila, unirConEspacios st.flujo_entrada, "accept")] := by
  simp only [iteracion, he, Bool.false_eq_true, if_false] at h
  cases hest : obtener_estado_actual st.pila with
  | none => simp only [hest] at h; simp at h
  | some estado =>
    simp only [hest] at h
    cases hacc : obtener_accion t estado (tokenActual st.flujo_entrada) with
    | none => simp only [hacc] at h; simp at h
    | some accion =>
      simp only [hacc] at h
      by_cases hd : empiezaCon "d" accion = true
      · rw [if_pos hd] at h
        split at h <;> simp at h
      · rw [if_neg hd] at h
        by_cases hr : empiezaCon "r" accion = true
        · rw [if_pos hr] at h
          split at h <;> simp at h
        · rw [if_neg hr] at h
          by_cases ha : (accion == "accept") = true
          · rw [if_pos ha] at h
            simp only [Paso.aceptado.injEq] at h
            subst h
            have haccion : accion = "accept" := by simpa using ha
            subst haccion
            exact ⟨rfl, rfl, rfl, rfl, rfl⟩
          · rw [if_neg ha] at h; simp at h

theorem iteracion_proceso (t : Tabla) (st st2 : EstadoLR)
    (he : st.error_ocurrido = false)
    (h : iteracion t st = Paso.procesoTerminado st2) :
    st2.pila = st.pila ∧ st2.flujo_entrada = st.flujo_entrada ∧
    st2.error_ocurrido = false ∧ st2.arbol = st.arbol ∧
    ∃ accion : String, empiezaCon "r" accion = true ∧
      cadenaANat (quitarPrimero accion) = some 0 ∧
      st2.salida_proceso = st.salida_proceso ++
        [(obtener_pila_como_cadena st.pila, unirConEspacios st.flujo_entrada, accion)] := by
  simp only [iteracion, he, Bool.false_eq_true, if_false] at h
  cases hest : obtener_estado_actual st.pila with
  | none => simp only [hest] at h; simp at h
  | some estado =>
    simp only [hest] at h
    cases hacc : obtener_accion t estado (tokenActual st.flujo_entrada) with
    | none => simp only [hacc] at h; simp at h
    | some accion =>
      simp only [hacc] at h
      by_cases hd : empiezaCon "d" accion = true
      · rw [if_pos hd] at h
        split at h <;> simp at h
      · rw [if_neg hd] at h
        by_cases hr : empiezaCon "r" accion = true
        · rw [if_pos hr] at h
          split at h
          · simp at h
          · rename_i st3 hred
            simp only [Paso.procesoTerminado.injEq] at h
            subst h
            obtain ⟨hst3, h0⟩ := reducir_regla0 t accion _ st3 hred
            subst hst3
            exact ⟨rfl, rfl, rfl, rfl, accion, hr, h0, rfl⟩
          · simp at h
        · rw [if_neg hr] at h
          by_cases ha : (accion == "accept") = true
          · rw [if_pos ha] at h; simp at h
          · rw [if_neg ha] at h; simp at h

theorem iteracion_errorTerminal (t : Tabla) (st st2 : EstadoLR)
    (he : st.error_ocurrido = false)
    (h : iteracion t st = Paso.errorSintactico st2) :
    st2.pila = st.pila ∧ st2.flujo_entrada = st.flujo_entrada ∧
    st2.error_ocurrido = true ∧ st2.arbol = st.arbol ∧
    ∃ (accion : String) (estado : Nat),
      st2.salida_proceso = st.salida_proceso ++
        [(obtener_pila_como_cadena st.pila, unirConEspacios st.flujo_entrada, accion),
         (obtener_pila_como_cadena st.pila, unirConEspacios st.flujo_entrada,
           mensajeDeError estado (tokenActual st.flujo_entrada))] := by
  simp only [iteracion, he, Bool.false_eq_true, if_false] at h
  cases hest : obtener_estado_actual st.pila with
  | none => simp only [hest] at h; simp at h
  | some estado =>
    simp only [hest] at h
    cases hacc : obtener_accion t estado (tokenActual st.flujo_entrada) with
    | none => simp only [hacc] at h; simp at h
    | some accion =>
      simp only [hacc] at h
      by_cases hd : empiezaCon "d" accion = true
      · rw [if_pos hd] at h
        split at h <;> simp at h
      · rw [if_neg hd] at h
        by_cases hr : empiezaCon "r" accion = true
        · rw [if_pos hr] at h
          split at h <;> simp at h
        · rw [if_neg hr] at h
          by_cases ha : (accion == "accept") = true
          · rw [if_pos ha] at h; simp at h
          · rw [if_neg ha] at h
            simp only [Paso.errorSintactico.injEq] at h
            subst h
            refine ⟨rfl, rfl, rfl, rfl, accion, estado, ?_⟩
            simp [manejar_error]

/-! ## Small concrete tables used to exercise the driver -/

/-- A table fragment that parses the empty token stream exactly the way a
correct table for this grammar would: reduce the empty production 2, goto
1, reduce rule 1 to the start symbol, goto 2, accept. -/
def T0 : Tabla :=
  { filas := [0, 1, 2]
    columnas := ["$", "Definiciones", "programa"]
    celda := fun estado col =>
      if estado == 0 && col == "$" then some "r2"
      else if estado == 0 && col == "Definiciones" then some "1"
      else if estado == 0 && col == "programa" then some "2"
      else if estado == 1 && col == "$" then some "r1"
      else if estado == 2 && col == "$" then some "accept"
      else none }

/-- A table whose only action is the reduction by the empty production 2
and which has no goto column for Definiciones: the reduction must fail at
the goto lookup. -/
def T1 : Tabla :=
  { filas := [0]
    columnas := ["$"]
    celda := fun estado col =>
      if estado == 0 && col == "$" then some "r2" else none }

/-- A table whose only action is the reduce by rule 0 shortcut. -/
def T2 : Tabla :=
  { filas := [0]
    columnas := ["$"]
    celda := fun estado col =>
      if estado == 0 && col == "$" then some "r0" else none }

/-- A table whose only action is a shift of identificador to state 1. -/
def T3 : Tabla :=
  { filas := [0, 1]
    columnas := ["identificador", "$"]
    celda := fun estado col =>
      if estado == 0 && col == "identificador" then some "d1" else none }

/-! ## Claim C3: the reduce pop discipline -/

/-- Claim C3: a reduction by a rule whose right-hand side has n symbols
pops exactly n (state, element) pairs, hands the popped symbol elements to
the node builder in reverse pop order (the left-to-right order of the
production), and leaves the rest of the stack untouched; the empty
production pops nothing and hands over no children. reducirFin is the
code after the pop loop: it builds Arbol.mk with exactly the given
children. -/
theorem C3_reduccion (t : Tabla) (st : EstadoLR) (accion : String) (r : Nat)
    (regla cab cue : String)
    (haccion : cadenaANat (quitarPrimero accion) = some r) (hr0 : r ≠ 0)
    (hregla : reglas r = some regla) (hsep : separarRegla regla = some (cab, cue)) :
    (recortar cue = "\\e" → reducir t accion st = reducirFin t cab [] st.pila st) ∧
    (recortar cue ≠ "\\e" →
      ∀ (l : List (Nat × Elem)) (resto : List Elem),
        l.length = (palabras (recortar cue)).length →
        st.pila = pares l ++ resto →
        reducir t accion st = reducirFin t cab ((l.map Prod.snd).reverse) resto st) := by
  constructor
  · intro he
    simp only [reducir, haccion, hregla, hsep]
    rw [if_neg (by simp [hr0]), if_pos (by simp [he])]
  · intro hne l resto hlen hpila
    simp only [reducir, haccion, hregla, hsep]
    rw [if_neg (by simp [hr0]), if_neg (by simp [hne])]
    rw [hpila, ← hlen, sacarHijos_pares l [] resto]
    simp

/-- Witness for C3: reduce by rule 3, whose right-hand side has two
symbols, on a stack holding two (state, node) pairs above the initial
state: both pairs are popped and the two nodes become children in
left-to-right order (deepest first). -/
theorem C3_testigo :
    reducir T0 "r3"
      { pila := [Sum.inl 5, Sum.inr (Arbol.mk "a" []), Sum.inl 6,
          Sum.inr (Arbol.mk "b" []), Sum.inl 0]
        flujo_entrada := ["$"]
        salida_proceso := []
        error_ocurrido := false
        arbol := none } =
      reducirFin T0 "<Definiciones>"
        [Sum.inr (Arbol.mk "b" []), Sum.inr (Arbol.mk "a" [])] [Sum.inl 0]
        { pila := [Sum.inl 5, Sum.inr (Arbol.mk "a" []), Sum.inl 6,
            Sum.inr (Arbol.mk "b" []), Sum.inl 0]
          flujo_entrada := ["$"]
          salida_proceso := []
          error_ocurrido := false
          arbol := none } :=
  (C3_reduccion T0 _ "r3" 3 "<Definiciones> ::= <Definicion> <Definiciones>"
      "<Definiciones>" "<Definicion> <Definiciones>" (by decide) (by decide) rfl
      (by decide)).2 (by decide)
    [(5, Sum.inr (Arbol.mk "a" [])), (6, Sum.inr (Arbol.mk "b" []))] [Sum.inl 0]
    (by decide) rfl

/-! ## Claim C5: the rule 0 shortcut -/

/-- Claim C5 (amended): when the looked-up action parses as a reduce by
rule 0, the loop iteration terminates parsing at once through the exit()
call of reducir, modelled as the procesoTerminado outcome: immediate, and
distinct from the aceptado outcome of an ordinary accept action, but in
the Python source it is an abrupt process exit, not a return the caller
sees. -/
theorem C5_regla0 (t : Tabla) (st : EstadoLR) (estado : Nat) (accion : String)
    (he : st.error_ocurrido = false)
    (hestado : obtener_estado_actual st.pila = some estado)
    (haccion : obtener_accion t estado (tokenActual st.flujo_entrada) = some accion)
    (hd : empiezaCon "d" accion = false)
    (hr : empiezaCon "r" accion = true)
    (h0 : cadenaANat (quitarPrimero accion) = some 0) :
    iteracion t st = Paso.procesoTerminado { st with
      salida_proceso := st.salida_proceso ++
        [(obtener_pila_como_cadena st.pila, unirConEspacios st.flujo_entrada, accion)] } ∧
    (∀ st1 st2 : EstadoLR, Paso.procesoTerminado st1 ≠ Paso.aceptado st2) := by
  constructor
  · simp only [iteracion, he, Bool.false_eq_true, if_false, hestado, haccion]
    rw [if_neg (by simp [hd]), if_pos hr]
    simp only [reducir, h0]
    rw [if_pos (by simp)]
  · intro st1 st2
    simp

/-- Witness for C5 with the table T2 whose state 0 action on the end
marker is r0. -/
theorem C5_testigo :
    iteracion T2 (estadoInicial ["$"]) = Paso.procesoTerminado
      { pila := [Sum.inl 0]
        flujo_entrada := ["$"]
        salida_proceso := [("0", "$", "r0")]
        error_ocurrido := false
        arbol := none } ∧
    (∀ st1 st2 : EstadoLR, Paso.procesoTerminado st1 ≠ Paso.aceptado st2) :=
  C5_regla0 T2 (estadoInicial ["$"]) 0 "r0" rfl rfl (by decide) (by decide)
    (by decide) (by decide)

/-- Counterexample for C5 as frozen: reducing by rule 0 does reach the
exit() call of reducir, an abrupt process exit (the procesoTerminado
constructor models exactly that call), so the claim that termination -is
not an abrupt process exit- fails on this code. -/
theorem C5_contraejemplo :
    ∃ st2, analizar T2 1 (estadoInicial ["$"]) = Resultado.procesoTerminado st2 :=
  ⟨_, rfl⟩

/-! ## Claim C2: the goto lookup after a reduction -/

/-- Claim C2 (amended): after the pops of a reduction expose the state s2,
the goto state is pushed only when the lookup succeeds, but the new tree
node is pushed unconditionally before the lookup; when the lookup returns
the "error" marker the driver records a syntax error naming exactly the
pair (s2, lhs-nonterminal), pushes no state (the node stays on top), sets
the error flag, and the next loop iteration halts without doing anything
more. -/
theorem C2_gotoFallo (t : Tabla) (cab : String) (hijos pilaR : List Elem)
    (st : EstadoLR) (s2 : Nat)
    (hestado : obtener_estado_actual pilaR = some s2) :
    (∀ g, obtener_goto t s2 cab = ResultadoGoto.estadoG g →
      reducirFin t cab hijos pilaR st = ResultadoReduce.continuaR { st with
        pila := Sum.inl g :: Sum.inr (Arbol.mk cab hijos) :: pilaR
        arbol := if st.arbol.isNone && (cab == "<programa>")
          then some (Arbol.mk cab hijos) else st.arbol }) ∧
    (obtener_goto t s2 cab = ResultadoGoto.sinTransicion →
      reducirFin t cab hijos pilaR st = ResultadoReduce.continuaR { st with
        pila := Sum.inr (Arbol.mk cab hijos) :: pilaR
        salida_proceso := st.salida_proceso ++
          [(obtener_pila_como_cadena (Sum.inr (Arbol.mk cab hijos) :: pilaR),
            unirConEspacios st.flujo_entrada, mensajeDeError s2 cab)]
        error_ocurrido := true }) ∧
    (∀ (st0 : EstadoLR) (fuel : Nat), st0.error_ocurrido = true →
      analizar t (fuel + 1) st0 = Resultado.errorSintactico st0) := by
  refine ⟨?_, ?_, ?_⟩
  · intro g hg
    simp only [reducirFin, hestado, hg]
  · intro hg
    simp only [reducirFin, hestado, hg, manejar_error]
  · intro st0 fuel he0
    exact analizar_error_detiene t st0 fuel he0

/-- Witness for C2 with the table T1, which has no goto column for
Definiciones: the reduction pushes the node, records the error naming the
pair (0, <Definiciones>), and pushes no state. -/
theorem C2_testigo :
    reducirFin T1 "<Definiciones>" [] [Sum.inl 0] (estadoInicial ["$"]) =
      ResultadoReduce.continuaR
        { pila := [Sum.inr (Arbol.mk "<Definiciones>" []), Sum.inl 0]
          flujo_entrada := ["$"]
          salida_proceso := [("0 <Definiciones>", "$", mensajeDeError 0 "<Definiciones>")]
          error_ocurrido := true
          arbol := none } :=
  (C2_gotoFallo T1 "<Definiciones>" [] [Sum.inl 0] (estadoInicial ["$"]) 0
      rfl).2.1 (by decide)

/-- Counterexample for C2 as frozen: the claim says the driver enters the
error state -without pushing anything-, but the run of T1 that fails at
the goto lookup ends in the ERROR state with the freshly built node
pushed on top of the stack. -/
theorem C2_contraejemplo :
    ∃ st2, analizar T1 2 (estadoInicial ["$"]) = Resultado.errorSintactico st2 ∧
      st2.pila = [Sum.inr (Arbol.mk "<Definiciones>" []), Sum.inl 0] :=
  ⟨_, rfl, rfl⟩

/-! ## Claim C4: the alternation invariant of the parse stack -/

theorem bienFormada_par (g : Nat) (a : Arbol) (resto : List Elem) :
    bienFormada (Sum.inl g :: Sum.inr a :: resto) = bienFormada resto := rfl

/-- Claim C4 (amended): the stack starts as the single state 0 and the
alternation invariant (state on top, strict state/node alternation, state
at the base) is preserved by every shift, by every reduction whose goto
lookup succeeds, and into the ACCEPTED, rule-0 and no-action ERROR
terminal outcomes; but a reduction whose goto lookup fails leaves the
ERROR state with the new symbol node on top of the stack (the alternating
rest below), so in that one terminal ERROR state the top is not a state. -/
theorem C4_alternancia :
    (∀ flujo, bienFormada (estadoInicial flujo).pila = true) ∧
    (∀ (t : Tabla) (st st2 : EstadoLR), bienFormada st.pila = true →
      st.error_ocurrido = false → iteracion t st = Paso.continua st2 →
      st2.error_ocurrido = false → bienFormada st2.pila = true) ∧
    (∀ (t : Tabla) (st st2 : EstadoLR), bienFormada st.pila = true →
      st.error_ocurrido = false → iteracion t st = Paso.aceptado st2 →
      bienFormada st2.pila = true) ∧
    (∀ (t : Tabla) (st st2 : EstadoLR), bienFormada st.pila = true →
      st.error_ocurrido = false → iteracion t st = Paso.procesoTerminado st2 →
      bienFormada st2.pila = true) ∧
    (∀ (t : Tabla) (st st2 : EstadoLR), bienFormada st.pila = true →
      st.error_ocurrido = false → iteracion t st = Paso.errorSintactico st2 →
      bienFormada st2.pila = true) ∧
    (∀ (t : Tabla) (st st2 : EstadoLR), bienFormada st.pila = true →
      st.error_ocurrido = false → iteracion t st = Paso.continua st2 →
      st2.error_ocurrido = true →
      ∃ (a : Arbol) (resto : List Elem),
        st2.pila = Sum.inr a :: resto ∧ bienFormada resto = true) := by
  refine ⟨?_, ?_, ?_, ?_, ?_, ?_⟩
  · intro flujo; rfl
  · intro t st st2 hbf he hiter he2
    obtain ⟨e1, hcasos⟩ := iteracion_continua t st st2 he hbf hiter
    rcases hcasos with ⟨g, token, resto, _, hp, _, _, _, _⟩ |
      ⟨cab, hijos, pilaR, s2, g, _, hbfR, _, _, hp, _, _, _⟩ |
      ⟨cab, hijos, pilaR, s2, _, _, _, _, _, _, herr, _⟩
    · rw [hp, bienFormada_par]; exact hbf
    · rw [hp, bienFormada_par]; exact hbfR
    · rw [herr] at he2; cases he2
  · intro t st st2 hbf he hiter
    obtain ⟨hp, _, _, _, _⟩ := iteracion_aceptado t st st2 he hiter
    rw [hp]; exact hbf
  · intro t st st2 hbf he hiter
    obtain ⟨hp, _, _, _, _⟩ := iteracion_proceso t st st2 he hiter
    rw [hp]; exact hbf
  · intro t st st2 hbf he hiter
    obtain ⟨hp, _, _, _, _⟩ := iteracion_errorTerminal t st st2 he hiter
    rw [hp]; exact hbf
  · intro t st st2 hbf he hiter he2
    obtain ⟨e1, hcasos⟩ := iteracion_continua t st st2 he hbf hiter
    rcases hcasos with ⟨g, token, resto, _, _, _, herr, _, _⟩ |
      ⟨cab, hijos, pilaR, s2, g, _, _, _, _, _, _, herr, _⟩ |
      ⟨cab, hijos, pilaR, s2, _, hbfR, _, _, hp, _, _, _⟩
    · rw [herr] at he2; cases he2
    · rw [herr] at he2; cases he2
    · exact ⟨Arbol.mk cab hijos, pilaR, hp, hbfR⟩

/-- Witness for C4: the invariant after a shift with table T3 from the
initial stack. -/
theorem C4_testigo :
    bienFormada [Sum.inl 1, Sum.inr (Arbol.mk "identificador" []), Sum.inl 0] = true :=
  C4_alternancia.2.1 T3 (estadoInicial ["identificador", "$"])
    { pila := [Sum.inl 1, Sum.inr (Arbol.mk "identificador" []), Sum.inl 0]
      flujo_entrada := ["$"]
      salida_proceso := [("0", "identificador $", "d1")]
      error_ocurrido := false
      arbol := none } rfl rfl rfl rfl

/-- Counterexample for C4 as frozen: the claim says the top of the stack
is a state also in the terminal ERROR state, but the goto-failure run of
T1 reaches ERROR with a symbol node on top and the alternation broken. -/
theorem C4_contraejemplo :
    ∃ st2, analizar T1 2 (estadoInicial ["$"]) = Resultado.errorSintactico st2 ∧
      bienFormada st2.pila = false :=
  ⟨_, rfl, rfl⟩

/-! ## Claim C8: the trace discipline -/

/-- The empty table: every lookup on it yields the "error" action. -/
def Tvacia : Tabla := { filas := [], columnas := [], celda := fun _ _ => none }

/-- Claim C8 (amended): every loop iteration from a running state appends
exactly one trace entry when it continues (shift, reduce with goto
success), accepts (the entry carrying the accept action), or takes the
rule-0 shortcut (the entry carrying the r0 action) - but an iteration
that invokes the error handler appends exactly two entries (the looked-up
action and then the error message), whether through the no-action branch
or through a goto failure; once a terminal outcome is reached nothing
further is appended: the error flag makes the next iteration return the
state unchanged, and analizar returns terminal outcomes as they are. -/
theorem C8_traza (t : Tabla) (st : EstadoLR) (he : st.error_ocurrido = false)
    (hbf : bienFormada st.pila = true) :
    (∀ st2, iteracion t st = Paso.continua st2 → st2.error_ocurrido = false →
      ∃ e1 : String × String × String,
        st2.salida_proceso = st.salida_proceso ++ [e1]) ∧
    (∀ st2, iteracion t st = Paso.continua st2 → st2.error_ocurrido = true →
      ∃ (e1 e2 : String × String × String) (estado : Nat) (nt : String),
        e2.2.2 = mensajeDeError estado nt ∧
        st2.salida_proceso = st.salida_proceso ++ [e1, e2]) ∧
    (∀ st2, iteracion t st = Paso.aceptado st2 →
      st2.salida_proceso = st.salida_proceso ++
        [(obtener_pila_como_cadena st.pila, unirConEspacios st.flujo_entrada,
          "accept")]) ∧
    (∀ st2, iteracion t st = Paso.procesoTerminado st2 →
      ∃ accion : String, empiezaCon "r" accion = true ∧
        cadenaANat (quitarPrimero accion) = some 0 ∧
        st2.salida_proceso = st.salida_proceso ++
          [(obtener_pila_como_cadena st.pila, unirConEspacios st.flujo_entrada,
            accion)]) ∧
    (∀ st2, iteracion t st = Paso.errorSintactico st2 →
      ∃ (e1 : String × String × String) (estado : Nat),
        st2.salida_proceso = st.salida_proceso ++
          [e1, (obtener_pila_como_cadena st.pila, unirConEspacios st.flujo_entrada,
            mensajeDeError estado (tokenActual st.flujo_entrada))]) ∧
    (∀ st0 : EstadoLR, st0.error_ocurrido = true →
      iteracion t st0 = Paso.errorSintactico st0) ∧
    (∀ (st2 : EstadoLR) (fuel : Nat), iteracion t st = Paso.aceptado st2 →
      analizar t (fuel + 1) st = Resultado.aceptado st2) ∧
    (∀ (st2 : EstadoLR) (fuel : Nat), iteracion t st = Paso.procesoTerminado st2 →
      analizar t (fuel + 1) st = Resultado.procesoTerminado st2) ∧
    (∀ (st2 : EstadoLR) (fuel : Nat), iteracion t st = Paso.errorSintactico st2 →
      analizar t (fuel + 1) st = Resultado.errorSintactico st2) := by
  refine ⟨?_, ?_, ?_, ?_, ?_, ?_, ?_, ?_, ?_⟩
  · intro st2 hiter he2
    obtain ⟨e1, hcasos⟩ := iteracion_continua t st st2 he hbf hiter
    rcases hcasos with ⟨_, _, _, _, _, _, _, _, hs⟩ |
      ⟨_, _, _, _, _, _, _, _, _, _, _, _, hs⟩ |
      ⟨_, _, _, _, _, _, _, _, _, _, herr, _⟩
    · exact ⟨e1, hs⟩
    · exact ⟨e1, hs⟩
    · rw [herr] at he2; cases he2
  · intro st2 hiter he2
    obtain ⟨e1, hcasos⟩ := iteracion_continua t st st2 he hbf hiter
    rcases hcasos with ⟨_, _, _, _, _, _, herr, _, _⟩ |
      ⟨_, _, _, _, _, _, _, _, _, _, _, herr, _⟩ |
      ⟨cab, hijos, pilaR, s2, _, _, _, _, _, _, _, e2, hm, hs⟩
    · rw [herr] at he2; cases he2
    · rw [herr] at he2; cases he2
    · exact ⟨e1, e2, s2, cab, hm, hs⟩
  · intro st2 hiter
    exact (iteracion_aceptado t st st2 he hiter).2.2.2.2
  · intro st2 hiter
    obtain ⟨_, _, _, _, accion, hr, h0, hs⟩ := iteracion_proceso t st st2 he hiter
    exact ⟨accion, hr, h0, hs⟩
  · intro st2 hiter
    obtain ⟨_, _, _, _, accion, estado, hs⟩ := iteracion_errorTerminal t st st2 he hiter
    exact ⟨(obtener_pila_como_cadena st.pila, unirConEspacios st.flujo_entrada, accion),
      estado, hs⟩
  · intro st0 he0
    exact iteracion_error_previo t st0 he0
  · intro st2 fuel hiter
    simp only [analizar]
    rw [hiter]
  · intro st2 fuel hiter
    simp only [analizar]
    rw [hiter]
  · intro st2 fuel hiter
    simp only [analizar]
    rw [hiter]

/-- Witness for C8: the reduce iteration of T0 from the initial state
appends exactly one trace entry. -/
theorem C8_testigo :
    ∃ e1 : String × String × String,
      ([("0", "$", "r2")] : List (String × String × String)) = [] ++ [e1] :=
  (C8_traza T0 (estadoInicial ["$"]) rfl rfl).1
    { pila := [Sum.inl 1, Sum.inr (Arbol.mk "<Definiciones>" []), Sum.inl 0]
      flujo_entrada := ["$"]
      salida_proceso := [("0", "$", "r2")]
      error_ocurrido := false
      arbol := none } rfl rfl

/-- Counterexample for C8 as frozen: the claim says exactly one trace
entry is appended per automaton step including an error step, but the
single iteration of the empty table appends two entries (the looked-up
action and the error message). -/
theorem C8_contraejemplo :
    ∃ st2, iteracion Tvacia (estadoInicial ["$"]) = Paso.errorSintactico st2 ∧
      st2.salida_proceso.length = 2 :=
  ⟨_, rfl, rfl⟩

/-! ## Claim C1: the leaves of the returned derivation tree -/

theorem empiezaConMenor_error (c : Char) :
    empiezaConMenor ("ERROR(" ++ String.mk [ c ] ++ ")") = false := by
  unfold empiezaConMenor
  rw [errorTok_datos]
  rfl

theorem lexico_sinMarca (fuente : String) :
    ∀ tok ∈ analizador_lexico fuente, empiezaConMenor tok = false := by
  intro tok h
  rcases explorar_pertenece _ _ _ _ h with ⟨c, rfl⟩ | ⟨prev2, s2, k, hpp⟩
  · exact empiezaConMenor_error c
  · obtain ⟨p, hp, hname, _⟩ := primerPatron_nombre prev2 s2 tok k hpp
    have htodos : ∀ q ∈ patrones, empiezaConMenor q.1 = false := by decide
    rw [← hname]
    exact htodos p hp

/-- The leaf/input round-trip invariant of every accepting run: the
terminal leaves of the nodes on the stack (base to top) followed by the
remaining input always equal the starting leaves plus input, provided the
starting stack is well formed and no input token carries a bracketed
label. -/
theorem analizar_aceptado_invariante :
    ∀ (fuel : Nat) (t : Tabla) (st st2 : EstadoLR),
      st.error_ocurrido = false → bienFormada st.pila = true →
      (∀ tok ∈ st.flujo_entrada, empiezaConMenor tok = false) →
      analizar t fuel st = Resultado.aceptado st2 →
      hojasPila st2.pila ++ st2.flujo_entrada = hojasPila st.pila ++ st.flujo_entrada ∧
      bienFormada st2.pila = true := by
  intro fuel
  induction fuel with
  | zero => intro t st st2 he hbf htoks h; simp [analizar] at h
  | succ fuel ih =>
    intro t st st2 he hbf htoks h
    simp only [analizar] at h
    cases hiter : iteracion t st with
    | continua st3 =>
      simp only [hiter] at h
      by_cases he3 : st3.error_ocurrido = true
      · cases fuel with
        | zero => simp [analizar] at h
        | succ fuel2 => rw [analizar_error_detiene t st3 fuel2 he3] at h; simp at h
      · have he3b : st3.error_ocurrido = false := by simpa using he3
        obtain ⟨e1, hcasos⟩ := iteracion_continua t st st3 he hbf hiter
        rcases hcasos with ⟨g, token, resto, hflujo, hp, hf, _, _, _⟩ |
          ⟨cab, hijos, pilaR, s2, g, hcab, hbfR, hhojas, _, hp, hf, _, _⟩ |
          ⟨_, _, _, _, _, _, _, _, _, _, herr, _⟩
        · have hbf3 : bienFormada st3.pila = true := by
            rw [hp, bienFormada_par]; exact hbf
          have htoks3 : ∀ tok ∈ st3.flujo_entrada, empiezaConMenor tok = false := by
            intro tok2 hk
            rw [hf] at hk
            exact htoks tok2 (by rw [hflujo]; exact List.mem_cons_of_mem _ hk)
          obtain ⟨hinv, hbf2⟩ := ih t st3 st2 he3b hbf3 htoks3 h
          refine ⟨?_, hbf2⟩
          rw [hinv, hp, hf, hflujo]
          rw [hojasPila_cons, hojasPila_cons]
          have htok2 : empiezaConMenor token = false :=
            htoks token (by rw [hflujo]; simp)
          rw [show elemHojas (Sum.inr (Arbol.mk token [])) =
            hojasFiltradas (Arbol.mk token []) from rfl]
          rw [show hojasFiltradas (Arbol.mk token []) = [token] from
            by simp [hojasFiltradas, hojas, List.filter, htok2]]
          simp [elemHojas]
        · have hbf3 : bienFormada st3.pila = true := by
            rw [hp, bienFormada_par]; exact hbfR
          have htoks3 : ∀ tok ∈ st3.flujo_entrada, empiezaConMenor tok = false := by
            intro tok2 hk
            rw [hf] at hk
            exact htoks tok2 hk
          obtain ⟨hinv, hbf2⟩ := ih t st3 st2 he3b hbf3 htoks3 h
          refine ⟨?_, hbf2⟩
          rw [hinv, hp, hf]
          rw [hojasPila_cons, hhojas]
          simp [elemHojas]
        · rw [herr] at he3b; cases he3b
    | aceptado st3 =>
      simp only [hiter] at h
      simp only [Resultado.aceptado.injEq] at h
      subst h
      obtain ⟨hp, hf, _, _, _⟩ := iteracion_aceptado t st st3 he hiter
      rw [hp, hf]
      exact ⟨rfl, hbf⟩
    | procesoTerminado st3 => simp only [hiter] at h; simp at h
    | errorSintactico st3 => simp only [hiter] at h; simp at h
    | excepcion st3 => simp only [hiter] at h; simp at h

/-- Claim C1 (amended): whenever the driver accepts an input scanned from
a source text and the run ends in the normal accepting configuration (the
recorded root is the only symbol node left on the stack, above the
initial state 0, with only the end marker unconsumed), the leaves of the
returned derivation tree that carry terminal labels - that is, the leaf
sequence with the childless bracketed-nonterminal nodes of empty
productions dropped - read left to right are exactly the original token
sequence with the end marker removed. -/
theorem C1_hojas (t : Tabla) (fuel : Nat) (fuente : String) (st2 : EstadoLR)
    (g : Nat) (r : Arbol)
    (h : analizar t fuel (inicialDesdeFuente fuente) = Resultado.aceptado st2)
    (hpila : st2.pila = [Sum.inl g, Sum.inr r, Sum.inl 0])
    (hflujo : st2.flujo_entrada = ["$"])
    (_harbol : st2.arbol = some r) :
    hojasFiltradas r = analizador_lexico fuente := by
  have htoks : ∀ tok ∈ (inicialDesdeFuente fuente).flujo_entrada,
      empiezaConMenor tok = false := by
    intro tok hk
    rw [show (inicialDesdeFuente fuente).flujo_entrada =
      analizador_lexico fuente ++ ["$"] from rfl] at hk
    rcases List.mem_append.mp hk with hk1 | hk2
    · exact lexico_sinMarca fuente tok hk1
    · rw [show tok = "$" from by simpa using hk2]
      rfl
  obtain ⟨hinv, _⟩ :=
    analizar_aceptado_invariante fuel t (inicialDesdeFuente fuente) st2 rfl rfl htoks h
  rw [hpila, hflujo] at hinv
  rw [show hojasPila [Sum.inl g, Sum.inr r, Sum.inl 0] = hojasFiltradas r from
    by simp [hojasPila, elemHojas]] at hinv
  rw [show (inicialDesdeFuente fuente).pila = [Sum.inl 0] from rfl] at hinv
  rw [show hojasPila [Sum.inl 0] = [] from rfl] at hinv
  rw [show (inicialDesdeFuente fuente).flujo_entrada =
    analizador_lexico fuente ++ ["$"] from rfl] at hinv
  simp only [List.nil_append] at hinv
  exact List.append_cancel_right hinv

/-- Witness for C1 (amended): the run of T0 on the empty source text
accepts with root <programa> whose only descendant is the childless
<Definiciones> node of the empty production; its terminal leaves are the
empty sequence, which is exactly the scanned token sequence. -/
theorem C1_testigo :
    hojasFiltradas
      (Arbol.mk "<programa>" [Sum.inr (Arbol.mk "<Definiciones>" [])]) =
      analizador_lexico "" :=
  C1_hojas T0 3 ""
    { pila := [Sum.inl 2,
        Sum.inr (Arbol.mk "<programa>" [Sum.inr (Arbol.mk "<Definiciones>" [])]),
        Sum.inl 0]
      flujo_entrada := ["$"]
      salida_proceso := [("0", "$", "r2"), ("0 <Definiciones> 1", "$", "r1"),
        ("0 <programa> 2", "$", "accept")]
      error_ocurrido := false
      arbol := some (Arbol.mk "<programa>" [Sum.inr (Arbol.mk "<Definiciones>" [])]) }
    2 (Arbol.mk "<programa>" [Sum.inr (Arbol.mk "<Definiciones>" [])])
    rfl rfl rfl rfl

/-- Counterexample for C1 as frozen: on the empty source text the same
accepting run returns a derivation tree whose leaves, read left to right,
are the one-element sequence <Definiciones> (the childless node of the
empty production), which differs from the original token sequence minus
the end marker, the empty sequence. -/
theorem C1_contraejemplo :
    ∃ st2, analizar T0 3 (inicialDesdeFuente "") = Resultado.aceptado st2 ∧
      st2.arbol = some (Arbol.mk "<programa>"
        [Sum.inr (Arbol.mk "<Definiciones>" [])]) ∧
      hojas (Arbol.mk "<programa>" [Sum.inr (Arbol.mk "<Definiciones>" [])]) ≠
        analizador_lexico "" := by
  refine ⟨_, rfl, rfl, ?_⟩
  rw [show hojas (Arbol.mk "<programa>" [Sum.inr (Arbol.mk "<Definiciones>" [])]) =
    ["<Definiciones>"] from by simp [hojas, hojasElems]]
  decide
